import Mathlib

/-!
# Verification of the chess-engine core (board substrate and search)

Shallow embedding of the engine's board representation, make/unmake with
incremental Zobrist hashing, move generation, attack detection, draw
detection, evaluation phase test, transposition-table probe, quiescence
and the alpha-beta search, translated from the C++ sources
(`board.cpp` / `search.cpp` / `types.h` / `board.h` / `search.h`).

Modelling conventions:
* `int` squares are `Int` (the sources index squares 0..63 and guard every
  out-of-range arithmetic before dereferencing); the 64-square mailbox
  `int board[64]` is a total function `Int → Int` read only at guarded
  indices.
* `uint64_t` values are `Nat` reduced `% 2^64` where C++ arithmetic wraps;
  `^` is `Nat.xor`, which preserves `< 2^64`.
* The position-history buffer (`uint64_t pos_history[1024]` plus
  `pos_history_count`) is modelled as the stack it implements: a
  `List Nat` whose head is the most recently pushed entry and whose
  length is `pos_history_count`.
* The time-control machinery (`check_time`, `time_up`) is real-time and is
  embedded in its `max_time <= 0` configuration, in which `check_time`
  returns immediately and `time_up` stays `false` forever; every claim
  below conditions on the time limit not expiring.
* Recursive search routines take an explicit fuel argument; the fuel only
  matters when it underruns the recursion depth of the C++ original, and
  every theorem either holds for all fuel or assumes enough fuel for the
  branch it talks about (which performs no recursion).
-/

set_option maxRecDepth 1000000
set_option maxHeartbeats 1000000

namespace ChessEngine

/-! ## types.h — squares, pieces, constants -/

def sq_file (s : Int) : Int := s % 8

/-- `s >> 3` in the source; only applied at in-range squares `0 ≤ s < 64`,
where it agrees with division. -/
def sq_rank (s : Int) : Int := s / 8

def make_sq (f r : Int) : Int := r * 8 + f

def mirror_sq (s : Int) : Int := s + 56 - 16 * (sq_rank s)

/-- `piece_type`: absolute value of the signed piece code. -/
def piece_type (p : Int) : Int := if p > 0 then p else -p

/-- `piece_side`: 0 (white) for positive, 1 (black) otherwise (the source
returns `BLACK_SIDE` for empty as well). -/
def piece_side (p : Int) : Nat := if p > 0 then 0 else 1

def piece_sign (side : Nat) : Int := if side = 0 then 1 else -1

def FL_CASTLE : Nat := 1
def FL_EP : Nat := 2
def FL_DOUBLE : Nat := 4

def MAX_PLY : Nat := 128
def INF_SCORE : Int := 100000
def MATE_SCORE : Int := 99000

def PIECE_VAL (pt : Int) : Int :=
  if pt = 1 then 100 else if pt = 2 then 320 else if pt = 3 then 330
  else if pt = 4 then 500 else if pt = 5 then 900 else if pt = 6 then 20000
  else 0

def KNIGHT_DIRS : List Int := [17, 15, 10, 6, -6, -10, -15, -17]
def BISHOP_DIRS : List Int := [9, 7, -7, -9]
def ROOK_DIRS : List Int := [8, 1, -1, -8]
def KING_DIRS : List Int := [1, -1, 8, -8, 9, 7, -7, -9]

/-- The squares `0..63`, the iteration domain of every `for (sq = 0; sq < 64)`
loop. -/
def range64 : List Int := (List.range 64).map (fun n => Int.ofNat n)

structure Move where
  fromSq : Int
  toSq : Int
  captured : Int
  promotion : Int
  flags : Nat
  deriving DecidableEq, Repr

/-- The default-constructed `Move()` (a null move: `from == to`). -/
def Move.null : Move := ⟨0, 0, 0, 0, 0⟩

/-- `Move::operator==` compares only `from`, `to` and `promotion`. -/
def Move.cppEq (a b : Move) : Bool :=
  a.fromSq == b.fromSq && a.toSq == b.toSq && a.promotion == b.promotion

structure UndoInfo where
  castling : Nat
  ep_square : Int
  halfmove : Int
  hash : Nat
  deriving DecidableEq, Repr

/-! ## Zobrist keys (board.cpp, `init_zobrist`) -/

/-- One step of the 64-bit xorshift generator
(`s ^= s << 13; s ^= s >> 7; s ^= s << 17`). -/
def xorshift64 (s : Nat) : Nat :=
  let s1 := (s ^^^ (s <<< 13)) % 2 ^ 64
  let s2 := s1 ^^^ (s1 >>> 7)
  (s2 ^^^ (s2 <<< 17)) % 2 ^ 64

def zobristSeed : Nat := 0x12345678ABCDEF01

/-- The `n`-th value drawn from the generator (the `n`-th call of
`xorshift64(seed)` starting from the fixed seed). -/
def zdraw (n : Nat) : Nat := xorshift64^[n + 1] zobristSeed

/-- `Z_PIECE[p][s]`: keys are drawn piece-major, square-minor, first. -/
def Z_PIECE (p : Nat) (sq : Int) : Nat := zdraw (p * 64 + sq.toNat)

/-- `Z_SIDE` is drawn right after the 13 × 64 piece keys. -/
def Z_SIDE : Nat := zdraw 832

/-- `Z_CASTLE[0..15]` follow `Z_SIDE`. -/
def Z_CASTLE (c : Nat) : Nat := zdraw (833 + c)

/-- `Z_EP[0..7]` (per file) come last. -/
def Z_EP (f : Int) : Nat := zdraw (849 + f.toNat)

/-- `Board::piece_index`: maps the signed piece onto 0-12. -/
def piece_index (p : Int) : Nat :=
  if p > 0 then p.toNat else if p < 0 then 6 + (-p).toNat else 0

/-! ## Board state -/

@[ext]
structure Board where
  board : Int → Int
  side : Nat
  castling : Nat
  ep_square : Int
  halfmove : Int
  fullmove : Int
  hash : Nat
  king_sq : Nat → Int
  pos_history : List Nat

/-- `pos_history_count` of the C++ board is the stack length. -/
def Board.pos_history_count (b : Board) : Nat := b.pos_history.length

/-- `MAX_HISTORY` (board.h). -/
def MAX_HISTORY : Nat := 1024

/-- `Board::compute_hash`, as a function of the fields it reads: fold of the
piece-square keys over the non-empty squares, then the side key for black,
the castling-mask key, and the en-passant file key when set. -/
def zobristOf (bd : Int → Int) (side castling : Nat) (ep : Int) : Nat :=
  let h := range64.foldl
    (fun h sq => if bd sq ≠ 0 then h ^^^ Z_PIECE (piece_index (bd sq)) sq else h) 0
  let h := if side = 1 then h ^^^ Z_SIDE else h
  let h := h ^^^ Z_CASTLE castling
  if ep ≥ 0 then h ^^^ Z_EP (sq_file ep) else h

def Board.compute_hash_value (b : Board) : Nat :=
  zobristOf b.board b.side b.castling b.ep_square

/-! ## Make / unmake (board.cpp lines 137-280)

`make_move` mutates several independent fields; the translation computes
each field with its own function (the interleaving of hash updates with
board writes in the source is immaterial: the hash chain only reads the
pre-move board). -/

/-- The en-passant capture square `make_sq(sq_file(m.to), sq_rank(m.from))`. -/
def ep_capture_sq (m : Move) : Int := make_sq (sq_file m.toSq) (sq_rank m.fromSq)

/-- The mailbox after `make_move` (source order: clear `from`, clear the
en-passant victim, place the moved/promoted piece on `to` — a normally
captured piece is simply overwritten there — then move the castling rook). -/
def make_board_fn (b : Board) (m : Move) : Int → Int :=
  let piece := b.board m.fromSq
  let bd := Function.update b.board m.fromSq 0
  let bd := if m.captured ≠ 0 ∧ m.flags &&& FL_EP ≠ 0 then
      Function.update bd (ep_capture_sq m) 0
    else bd
  let placed := if m.promotion ≠ 0 then m.promotion else piece
  let bd := Function.update bd m.toSq placed
  if m.flags &&& FL_CASTLE ≠ 0 then
    let rook := piece_sign (piece_side piece) * 4
    let rook_from := if sq_file m.toSq = 6 then make_sq 7 (sq_rank m.fromSq)
                     else make_sq 0 (sq_rank m.fromSq)
    let rook_to := if sq_file m.toSq = 6 then make_sq 5 (sq_rank m.fromSq)
                   else make_sq 3 (sq_rank m.fromSq)
    Function.update (Function.update bd rook_from 0) rook_to rook
  else bd

/-- The castling mask after `make_move` (`castling &= ~k` on the 4-bit
mask). -/
def make_castling (b : Board) (m : Move) : Nat :=
  let pt := piece_type (b.board m.fromSq)
  let st := piece_side (b.board m.fromSq)
  let c := if pt = 6 then (if st = 0 then b.castling &&& 12 else b.castling &&& 3)
           else b.castling
  let c := if m.fromSq = 0 ∨ m.toSq = 0 then c &&& 13 else c
  let c := if m.fromSq = 7 ∨ m.toSq = 7 then c &&& 14 else c
  let c := if m.fromSq = 56 ∨ m.toSq = 56 then c &&& 7 else c
  if m.fromSq = 63 ∨ m.toSq = 63 then c &&& 11 else c

/-- The en-passant square after `make_move`. -/
def make_ep (b : Board) (m : Move) : Int :=
  if m.flags &&& FL_DOUBLE ≠ 0 ∧ piece_type (b.board m.fromSq) = 1 then
    (m.fromSq + m.toSq) / 2
  else -1

/-- The incrementally maintained hash after `make_move`, following the
source's XOR chain step by step. -/
def make_hash (b : Board) (m : Move) : Nat :=
  let piece := b.board m.fromSq
  -- Remove piece from source
  let h := b.hash ^^^ Z_PIECE (piece_index piece) m.fromSq
  -- Remove captured piece
  let h := if m.captured ≠ 0 then
      (if m.flags &&& FL_EP ≠ 0 then
        h ^^^ Z_PIECE (piece_index m.captured) (ep_capture_sq m)
      else h ^^^ Z_PIECE (piece_index m.captured) m.toSq)
    else h
  -- Place piece (or promoted piece) on destination
  let placed := if m.promotion ≠ 0 then m.promotion else piece
  let h := h ^^^ Z_PIECE (piece_index placed) m.toSq
  -- Castling rook movement
  let h := if m.flags &&& FL_CASTLE ≠ 0 then
      let rook := piece_sign (piece_side piece) * 4
      let rook_from := if sq_file m.toSq = 6 then make_sq 7 (sq_rank m.fromSq)
                       else make_sq 0 (sq_rank m.fromSq)
      let rook_to := if sq_file m.toSq = 6 then make_sq 5 (sq_rank m.fromSq)
                     else make_sq 3 (sq_rank m.fromSq)
      h ^^^ Z_PIECE (piece_index rook) rook_from ^^^ Z_PIECE (piece_index rook) rook_to
    else h
  -- Castling rights: XOR the old and the new mask key
  let h := h ^^^ Z_CASTLE b.castling ^^^ Z_CASTLE (make_castling b m)
  -- En passant: XOR out the old file, XOR in the new one
  let h := if b.ep_square ≥ 0 then h ^^^ Z_EP (sq_file b.ep_square) else h
  let h := if m.flags &&& FL_DOUBLE ≠ 0 ∧ piece_type (b.board m.fromSq) = 1 then
      h ^^^ Z_EP (sq_file ((m.fromSq + m.toSq) / 2))
    else h
  -- Switch side
  h ^^^ Z_SIDE

/-- The king-square table after `make_move`. -/
def make_king_sq (b : Board) (m : Move) : Nat → Int :=
  if piece_type (b.board m.fromSq) = 6 then
    Function.update b.king_sq (piece_side (b.board m.fromSq)) m.toSq
  else b.king_sq

def Board.make_move (b : Board) (m : Move) : Board × UndoInfo :=
  let hash := make_hash b m
  ({ board := make_board_fn b m,
     side := b.side ^^^ 1,
     castling := make_castling b m,
     ep_square := make_ep b m,
     halfmove := if piece_type (b.board m.fromSq) = 1 ∨ m.captured ≠ 0 then 0
                 else b.halfmove + 1,
     fullmove := if b.side ^^^ 1 = 0 then b.fullmove + 1 else b.fullmove,
     hash := hash,
     king_sq := make_king_sq b m,
     -- Store position for repetition detection
     pos_history := if b.pos_history.length < MAX_HISTORY then hash :: b.pos_history
                    else b.pos_history },
   ⟨b.castling, b.ep_square, b.halfmove, b.hash⟩)

/-- The mailbox after `unmake_move` (`b` is the post-make board). -/
def unmake_board_fn (b : Board) (m : Move) : Int → Int :=
  let side := b.side ^^^ 1
  let piece := if m.promotion ≠ 0 then piece_sign side * 1 else b.board m.toSq
  let bd := Function.update b.board m.toSq 0
  let bd := Function.update bd m.fromSq piece
  let bd := if m.captured ≠ 0 then
      (if m.flags &&& FL_EP ≠ 0 then Function.update bd (ep_capture_sq m) m.captured
       else Function.update bd m.toSq m.captured)
    else bd
  -- Undo castling rook
  if m.flags &&& FL_CASTLE ≠ 0 then
    let rook := piece_sign side * 4
    if sq_file m.toSq = 6 then
      Function.update (Function.update bd (make_sq 7 (sq_rank m.fromSq)) rook)
        (make_sq 5 (sq_rank m.fromSq)) 0
    else
      Function.update (Function.update bd (make_sq 0 (sq_rank m.fromSq)) rook)
        (make_sq 3 (sq_rank m.fromSq)) 0
  else bd

def Board.unmake_move (b : Board) (m : Move) (undo : UndoInfo) : Board :=
  let side := b.side ^^^ 1
  let piece := if m.promotion ≠ 0 then piece_sign side * 1 else b.board m.toSq
  { board := unmake_board_fn b m,
    side := side,
    castling := undo.castling,
    ep_square := undo.ep_square,
    halfmove := undo.halfmove,
    fullmove := if side = 1 then b.fullmove - 1 else b.fullmove,
    hash := undo.hash,
    king_sq := if piece_type piece = 6 then Function.update b.king_sq side m.fromSq
               else b.king_sq,
    pos_history := b.pos_history.tail }

/-- `make_null_move`: the saved `UndoInfo` only has its `ep_square` and `hash`
fields written; the other two are never read back by `unmake_null_move`, so
they are filled with the current values here. -/
def Board.make_null_move (b : Board) : Board × UndoInfo :=
  let undo : UndoInfo := ⟨b.castling, b.ep_square, b.halfmove, b.hash⟩
  let hash := if b.ep_square ≥ 0 then b.hash ^^^ Z_EP (sq_file b.ep_square) else b.hash
  ({ b with ep_square := -1, side := b.side ^^^ 1, hash := hash ^^^ Z_SIDE }, undo)

def Board.unmake_null_move (b : Board) (undo : UndoInfo) : Board :=
  { b with side := b.side ^^^ 1, ep_square := undo.ep_square, hash := undo.hash }

/-! ## Attack detection (board.cpp, `Board::is_attacked`) -/

/-- One diagonal ray of the bishop/queen scan: walk from `tsq` (the C++ `to`)
in direction `d` until the edge, a wrap (`|file(to) - file(to-d)| ≠ 1`), or a
blocker. The C++ `for` loop runs at most 64 iterations (`to` is strictly
monotone and must stay in 0..63), so fuel 64 never underruns it. -/
def diagRayHits (bd : Int → Int) (sign d : Int) : Nat → Int → Bool
  | 0, _ => false
  | fuel + 1, tsq =>
    if tsq < 0 ∨ 64 ≤ tsq then false
    else if (sq_file tsq - sq_file (tsq - d)).natAbs ≠ 1 then false
    else
      let p := bd tsq
      if p = 0 then diagRayHits bd sign d fuel (tsq + d)
      else decide (p = sign * 3 ∨ p = sign * 5)

/-- One straight ray of the rook/queen scan; the wrap test differs for the
`|d| = 1` and `|d| = 8` directions exactly as in the source. -/
def straightRayHits (bd : Int → Int) (sign d : Int) : Nat → Int → Bool
  | 0, _ => false
  | fuel + 1, tsq =>
    if tsq < 0 ∨ 64 ≤ tsq then false
    else if d.natAbs = 1 ∧ sq_rank tsq ≠ sq_rank (tsq - d) then false
    else if d.natAbs = 8 ∧ sq_file tsq ≠ sq_file (tsq - d) then false
    else
      let p := bd tsq
      if p = 0 then straightRayHits bd sign d fuel (tsq + d)
      else decide (p = sign * 4 ∨ p = sign * 5)

def Board.is_attacked (b : Board) (sq : Int) (by_side : Nat) : Bool :=
  let sign := piece_sign by_side
  -- Pawn attacks
  let pawns :=
    if by_side = 0 then
      decide (sq_rank sq > 0) &&
        ((decide (sq_file sq > 0) && (b.board (sq - 9) == 1)) ||
         (decide (sq_file sq < 7) && (b.board (sq - 7) == 1)))
    else
      decide (sq_rank sq < 7) &&
        ((decide (sq_file sq > 0) && (b.board (sq + 7) == -1)) ||
         (decide (sq_file sq < 7) && (b.board (sq + 9) == -1)))
  -- Knight attacks
  let knights := KNIGHT_DIRS.any fun d =>
    let tsq := sq + d
    decide (0 ≤ tsq ∧ tsq < 64 ∧ (sq_file tsq - sq_file sq).natAbs ≤ 2) &&
      (b.board tsq == sign * 2)
  -- King attacks
  let kings := KING_DIRS.any fun d =>
    let tsq := sq + d
    decide (0 ≤ tsq ∧ tsq < 64 ∧ (sq_file tsq - sq_file sq).natAbs ≤ 1) &&
      (b.board tsq == sign * 6)
  -- Sliding attacks
  let diags := BISHOP_DIRS.any fun d => diagRayHits b.board sign d 64 (sq + d)
  let straights := ROOK_DIRS.any fun d => straightRayHits b.board sign d 64 (sq + d)
  pawns || knights || kings || diags || straights

def Board.in_check (b : Board) : Bool :=
  b.is_attacked (b.king_sq b.side) (b.side ^^^ 1)

/-! ## Pseudo-legal move generation (board.cpp lines 371-632) -/

/-- The capture branch of `gen_pawn_moves` for one of the two capture
directions (`cd ∈ {dir-1, dir+1}`, `cf ∈ {f-1, f+1}`). A normal capture and
an en-passant capture are both emitted when both conditions hold, exactly as
in the source. -/
def pawnCaptureAt (b : Board) (sign promo_rank sq cd cf : Int) : List Move :=
  if cf < 0 ∨ 7 < cf then []
  else
    let tsq := sq + cd
    if tsq < 0 ∨ 64 ≤ tsq then []
    else
      (if b.board tsq ≠ 0 ∧ piece_side (b.board tsq) ≠ b.side then
        if sq_rank tsq = promo_rank then
          [⟨sq, tsq, b.board tsq, sign * 5, 0⟩, ⟨sq, tsq, b.board tsq, sign * 4, 0⟩,
           ⟨sq, tsq, b.board tsq, sign * 3, 0⟩, ⟨sq, tsq, b.board tsq, sign * 2, 0⟩]
        else [⟨sq, tsq, b.board tsq, 0, 0⟩]
      else []) ++
      (if tsq = b.ep_square then [⟨sq, tsq, -sign * 1, 0, FL_EP⟩] else [])

def gen_pawn_moves (b : Board) : List Move :=
  let sign := piece_sign b.side
  let pawn := sign * 1
  let dir : Int := if b.side = 0 then 8 else -8
  let start_rank : Int := if b.side = 0 then 1 else 6
  let promo_rank : Int := if b.side = 0 then 7 else 0
  range64.flatMap fun sq =>
    if b.board sq ≠ pawn then []
    else
      let f := sq_file sq
      let r := sq_rank sq
      -- Forward
      let fwd :=
        let tsq := sq + dir
        if 0 ≤ tsq ∧ tsq < 64 ∧ b.board tsq = 0 then
          if sq_rank tsq = promo_rank then
            [⟨sq, tsq, 0, sign * 5, 0⟩, ⟨sq, tsq, 0, sign * 4, 0⟩,
             ⟨sq, tsq, 0, sign * 3, 0⟩, ⟨sq, tsq, 0, sign * 2, 0⟩]
          else
            ⟨sq, tsq, 0, 0, 0⟩ ::
              (if r = start_rank ∧ b.board (sq + 2 * dir) = 0 then
                [⟨sq, sq + 2 * dir, 0, 0, FL_DOUBLE⟩]
              else [])
        else []
      fwd ++ pawnCaptureAt b sign promo_rank sq (dir - 1) (f - 1) ++
        pawnCaptureAt b sign promo_rank sq (dir + 1) (f + 1)

def gen_knight_moves (b : Board) : List Move :=
  let knight := piece_sign b.side * 2
  range64.flatMap fun sq =>
    if b.board sq ≠ knight then []
    else
      KNIGHT_DIRS.flatMap fun d =>
        let tsq := sq + d
        if tsq < 0 ∨ 64 ≤ tsq then []
        else if 2 < (sq_file tsq - sq_file sq).natAbs then []
        else
          let target := b.board tsq
          if target = 0 then [⟨sq, tsq, 0, 0, 0⟩]
          else if piece_side target ≠ b.side then [⟨sq, tsq, target, 0, 0⟩]
          else []

/-- One ray of `gen_slider_moves`: emit quiet moves until a blocker, then a
capture iff the blocker is hostile. Fuel 64 never underruns the C++ loop
(see `diagRayHits`). -/
def sliderRay (b : Board) (sq d : Int) : Nat → Int → List Move
  | 0, _ => []
  | fuel + 1, tsq =>
    if tsq < 0 ∨ 64 ≤ tsq then []
    else if 1 < (sq_file tsq - sq_file (tsq - d)).natAbs then []
    else
      let target := b.board tsq
      if target = 0 then ⟨sq, tsq, 0, 0, 0⟩ :: sliderRay b sq d fuel (tsq + d)
      else if piece_side target ≠ b.side then [⟨sq, tsq, target, 0, 0⟩]
      else []

def gen_slider_moves (b : Board) (piece_t : Int) : List Move :=
  let piece := piece_sign b.side * piece_t
  let dirs := if piece_t = 3 then BISHOP_DIRS else if piece_t = 4 then ROOK_DIRS
              else KING_DIRS
  range64.flatMap fun sq =>
    if b.board sq ≠ piece then []
    else dirs.flatMap fun d => sliderRay b sq d 64 (sq + d)

def gen_king_moves (b : Board) : List Move :=
  let sq := b.king_sq b.side
  let steps := KING_DIRS.flatMap fun d =>
    let tsq := sq + d
    if tsq < 0 ∨ 64 ≤ tsq then []
    else if 1 < (sq_file tsq - sq_file sq).natAbs then []
    else
      let target := b.board tsq
      if target = 0 then [⟨sq, tsq, 0, 0, 0⟩]
      else if piece_side target ≠ b.side then [⟨sq, tsq, target, 0, 0⟩]
      else []
  let castles :=
    if b.is_attacked sq (b.side ^^^ 1) then []
    else if b.side = 0 then
      (if b.castling &&& 1 ≠ 0 ∧ b.board 5 = 0 ∧ b.board 6 = 0 ∧
          b.is_attacked 5 1 = false ∧ b.is_attacked 6 1 = false then
        [⟨4, 6, 0, 0, FL_CASTLE⟩] else []) ++
      (if b.castling &&& 2 ≠ 0 ∧ b.board 3 = 0 ∧ b.board 2 = 0 ∧ b.board 1 = 0 ∧
          b.is_attacked 3 1 = false ∧ b.is_attacked 2 1 = false then
        [⟨4, 2, 0, 0, FL_CASTLE⟩] else [])
    else
      (if b.castling &&& 4 ≠ 0 ∧ b.board 61 = 0 ∧ b.board 62 = 0 ∧
          b.is_attacked 61 0 = false ∧ b.is_attacked 62 0 = false then
        [⟨60, 62, 0, 0, FL_CASTLE⟩] else []) ++
      (if b.castling &&& 8 ≠ 0 ∧ b.board 59 = 0 ∧ b.board 58 = 0 ∧ b.board 57 = 0 ∧
          b.is_attacked 59 0 = false ∧ b.is_attacked 58 0 = false then
        [⟨60, 58, 0, 0, FL_CASTLE⟩] else [])
  steps ++ castles

def gen_pseudo_moves (b : Board) : List Move :=
  gen_pawn_moves b ++ gen_knight_moves b ++ gen_slider_moves b 3 ++
    gen_slider_moves b 4 ++ gen_slider_moves b 5 ++ gen_king_moves b

/-- `Board::gen_legal_moves`: pseudo moves filtered by make / king-attack
test / unmake. On the C++ side the filter relies on the make/unmake
round-trip restoring the board between iterations; the emitted list is the
filter of the pseudo list in any case, because the legality test never reads
the position history (the only field the round-trip can fail to restore). -/
def gen_legal_moves (b : Board) : List Move :=
  (gen_pseudo_moves b).filter fun m =>
    let b' := (b.make_move m).1
    !(b'.is_attacked (b'.king_sq (b'.side ^^^ 1)) b'.side)

/-! ## Capture generation (for quiescence) -/

def pawnCaptureOnlyAt (b : Board) (sign promo_rank sq cd cf : Int) : List Move :=
  if cf < 0 ∨ 7 < cf then []
  else
    let tsq := sq + cd
    if tsq < 0 ∨ 64 ≤ tsq then []
    else
      (if b.board tsq ≠ 0 ∧ piece_side (b.board tsq) ≠ b.side then
        if sq_rank tsq = promo_rank then [⟨sq, tsq, b.board tsq, sign * 5, 0⟩]
        else [⟨sq, tsq, b.board tsq, 0, 0⟩]
      else []) ++
      (if tsq = b.ep_square then [⟨sq, tsq, -sign * 1, 0, FL_EP⟩] else [])

def gen_pawn_captures (b : Board) : List Move :=
  let sign := piece_sign b.side
  let pawn := sign * 1
  let dir : Int := if b.side = 0 then 8 else -8
  let promo_rank : Int := if b.side = 0 then 7 else 0
  range64.flatMap fun sq =>
    if b.board sq ≠ pawn then []
    else
      let f := sq_file sq
      let fwd := sq + dir
      (if 0 ≤ fwd ∧ fwd < 64 ∧ b.board fwd = 0 ∧ sq_rank fwd = promo_rank then
        [⟨sq, fwd, 0, sign * 5, 0⟩] else []) ++
      pawnCaptureOnlyAt b sign promo_rank sq (dir - 1) (f - 1) ++
      pawnCaptureOnlyAt b sign promo_rank sq (dir + 1) (f + 1)

def gen_knight_captures (b : Board) : List Move :=
  let knight := piece_sign b.side * 2
  range64.flatMap fun sq =>
    if b.board sq ≠ knight then []
    else
      KNIGHT_DIRS.flatMap fun d =>
        let tsq := sq + d
        if tsq < 0 ∨ 64 ≤ tsq then []
        else if 2 < (sq_file tsq - sq_file sq).natAbs then []
        else
          let target := b.board tsq
          if target ≠ 0 ∧ piece_side target ≠ b.side then [⟨sq, tsq, target, 0, 0⟩]
          else []

def sliderCaptureRay (b : Board) (sq d : Int) : Nat → Int → List Move
  | 0, _ => []
  | fuel + 1, tsq =>
    if tsq < 0 ∨ 64 ≤ tsq then []
    else if 1 < (sq_file tsq - sq_file (tsq - d)).natAbs then []
    else
      let target := b.board tsq
      if target = 0 then sliderCaptureRay b sq d fuel (tsq + d)
      else if piece_side target ≠ b.side then [⟨sq, tsq, target, 0, 0⟩]
      else []

def gen_slider_captures (b : Board) (piece_t : Int) : List Move :=
  let piece := piece_sign b.side * piece_t
  let dirs := if piece_t = 3 then BISHOP_DIRS else if piece_t = 4 then ROOK_DIRS
              else KING_DIRS
  range64.flatMap fun sq =>
    if b.board sq ≠ piece then []
    else dirs.flatMap fun d => sliderCaptureRay b sq d 64 (sq + d)

def gen_king_captures (b : Board) : List Move :=
  let sq := b.king_sq b.side
  KING_DIRS.flatMap fun d =>
    let tsq := sq + d
    if tsq < 0 ∨ 64 ≤ tsq then []
    else if 1 < (sq_file tsq - sq_file sq).natAbs then []
    else
      let target := b.board tsq
      if target ≠ 0 ∧ piece_side target ≠ b.side then [⟨sq, tsq, target, 0, 0⟩]
      else []

def gen_captures (b : Board) : List Move :=
  gen_pawn_captures b ++ gen_knight_captures b ++ gen_slider_captures b 3 ++
    gen_slider_captures b 4 ++ gen_slider_captures b 5 ++ gen_king_captures b

/-! ## Draw detection (board.cpp lines 636-648) -/

/-- The descending repetition loop `for (i = count-3; i >= 0; i -= 2)`,
phrased on the history stack (head = newest, so C++ index `count-1-k` is
stack position `k`): after dropping the top two stack positions, every other
entry is compared with the current hash. -/
def repScan (h : Nat) : List Nat → Nat
  | [] => 0
  | [x] => if x = h then 1 else 0
  | x :: _ :: rest => (if x = h then 1 else 0) + repScan h rest

def Board.count_repetitions (b : Board) : Nat :=
  repScan b.hash (b.pos_history.drop 2)

def Board.is_draw (b : Board) : Bool :=
  if b.halfmove ≥ 100 then true
  else if b.count_repetitions ≥ 2 then true
  else false

/-! ## Piece-square tables (search.cpp lines 84-169) -/

def PST_PAWN : List Int :=
  [0, 0, 0, 0, 0, 0, 0, 0,
   50, 50, 50, 50, 50, 50, 50, 50,
   10, 10, 20, 30, 30, 20, 10, 10,
   5, 5, 10, 25, 25, 10, 5, 5,
   0, 0, 0, 20, 20, 0, 0, 0,
   5, -5, -10, 0, 0, -10, -5, 5,
   5, 10, 10, -20, -20, 10, 10, 5,
   0, 0, 0, 0, 0, 0, 0, 0]

def PST_KNIGHT : List Int :=
  [-50, -40, -30, -30, -30, -30, -40, -50,
   -40, -20, 0, 0, 0, 0, -20, -40,
   -30, 0, 10, 15, 15, 10, 0, -30,
   -30, 5, 15, 20, 20, 15, 5, -30,
   -30, 0, 15, 20, 20, 15, 0, -30,
   -30, 5, 10, 15, 15, 10, 5, -30,
   -40, -20, 0, 5, 5, 0, -20, -40,
   -50, -40, -30, -30, -30, -30, -40, -50]

def PST_BISHOP : List Int :=
  [-20, -10, -10, -10, -10, -10, -10, -20,
   -10, 0, 0, 0, 0, 0, 0, -10,
   -10, 0, 10, 10, 10, 10, 0, -10,
   -10, 5, 5, 10, 10, 5, 5, -10,
   -10, 0, 10, 10, 10, 10, 0, -10,
   -10, 10, 10, 10, 10, 10, 10, -10,
   -10, 5, 0, 0, 0, 0, 5, -10,
   -20, -10, -10, -10, -10, -10, -10, -20]

def PST_ROOK : List Int :=
  [0, 0, 0, 0, 0, 0, 0, 0,
   5, 10, 10, 10, 10, 10, 10, 5,
   -5, 0, 0, 0, 0, 0, 0, -5,
   -5, 0, 0, 0, 0, 0, 0, -5,
   -5, 0, 0, 0, 0, 0, 0, -5,
   -5, 0, 0, 0, 0, 0, 0, -5,
   -5, 0, 0, 0, 0, 0, 0, -5,
   0, 0, 0, 5, 5, 0, 0, 0]

def PST_QUEEN : List Int :=
  [-20, -10, -10, -5, -5, -10, -10, -20,
   -10, 0, 0, 0, 0, 0, 0, -10,
   -10, 0, 5, 5, 5, 5, 0, -10,
   -5, 0, 5, 5, 5, 5, 0, -5,
   0, 0, 5, 5, 5, 5, 0, -5,
   -10, 5, 5, 5, 5, 5, 0, -10,
   -10, 0, 5, 0, 0, 0, 0, -10,
   -20, -10, -10, -5, -5, -10, -10, -20]

def PST_KING_MG : List Int :=
  [-30, -40, -40, -50, -50, -40, -40, -30,
   -30, -40, -40, -50, -50, -40, -40, -30,
   -30, -40, -40, -50, -50, -40, -40, -30,
   -30, -40, -40, -50, -50, -40, -40, -30,
   -20, -30, -30, -40, -40, -30, -30, -20,
   -10, -20, -20, -20, -20, -20, -20, -10,
   20, 20, 0, 0, 0, 0, 20, 20,
   20, 30, 10, 0, 0, 10, 30, 20]

def PST_KING_EG : List Int :=
  [-50, -40, -30, -20, -20, -30, -40, -50,
   -30, -20, -10, 0, 0, -10, -20, -30,
   -30, -10, 20, 30, 30, 20, -10, -30,
   -30, -10, 30, 40, 40, 30, -10, -30,
   -30, -10, 30, 40, 40, 30, -10, -30,
   -30, -10, 20, 30, 30, 20, -10, -30,
   -30, -30, 0, 0, 0, 0, -30, -30,
   -50, -30, -30, -30, -30, -30, -30, -50]

/-- `PST_TABLE[pt]` selection together with the endgame king-table switch
(`(pt == PT_KING && endgame) ? PST_KING_EG : PST_TABLE[pt]`), and the
`pst ? pst[idx] : 0` read. -/
def pstValue (pt : Int) (endgame : Bool) (idx : Int) : Int :=
  let table :=
    if pt = 1 then PST_PAWN else if pt = 2 then PST_KNIGHT
    else if pt = 3 then PST_BISHOP else if pt = 4 then PST_ROOK
    else if pt = 5 then PST_QUEEN
    else if pt = 6 then (if endgame then PST_KING_EG else PST_KING_MG)
    else []
  table.getD idx.toNat 0

/-! ## Evaluation (search.cpp lines 175-299) -/

/-- `is_endgame` (search.cpp lines 175-183): the loop counts queens and
minor pieces of BOTH colours together. -/
def is_endgame (b : Board) : Bool :=
  let qm := range64.foldl
    (fun (qm : Nat × Nat) sq =>
      let pt := piece_type (b.board sq)
      ((if pt = 5 then qm.1 + 1 else qm.1),
       (if pt = 2 ∨ pt = 3 then qm.2 + 1 else qm.2)))
    (0, 0)
  qm.1 == 0 || (decide (qm.1 ≤ 2) && decide (qm.2 ≤ 2))

/-- `white_pawn_files[f]` after the main evaluation loop: the number of white
pawns on file `f` (the loop increments the cell once per white pawn there). -/
def wpawnFile (b : Board) (f : Int) : Nat :=
  range64.countP fun sq => b.board sq == 1 && sq_file sq == f

def bpawnFile (b : Board) (f : Int) : Nat :=
  range64.countP fun sq => b.board sq == -1 && sq_file sq == f

/-- The eight files, iteration domain of the pawn-structure loop. -/
def range8 : List Int := (List.range 8).map (fun n => Int.ofNat n)

/-- `Searcher::evaluate` — centipawn score from White's perspective. The
`white_pawns` / `black_pawns` / `white_material` / `black_material` counters
of the source are accumulated but never read afterwards, so they are not
carried here. -/
def evaluate (b : Board) : Int :=
  let endgame := is_endgame b
  -- Material + piece-square tables (+ bishop counting)
  let score := range64.foldl
    (fun sc sq =>
      let p := b.board sq
      if p = 0 then sc
      else
        let pt := piece_type p
        let val := PIECE_VAL pt
        if p > 0 then sc + val + pstValue pt endgame (mirror_sq sq)
        else sc - (val + pstValue pt endgame sq))
    0
  let white_bishops := range64.countP fun sq => b.board sq == 3
  let black_bishops := range64.countP fun sq => b.board sq == -3
  -- Bishop pair bonus
  let score := if white_bishops ≥ 2 then score + 30 else score
  let score := if black_bishops ≥ 2 then score - 30 else score
  -- Pawn structure (doubled, isolated) per file
  let score := range8.foldl
    (fun sc f =>
      let wf := (wpawnFile b f : Int)
      let bf := (bpawnFile b f : Int)
      let sc := if wf > 1 then sc - 10 * (wf - 1) else sc
      let sc := if bf > 1 then sc + 10 * (bf - 1) else sc
      let w_adj := (f > 0 ∧ wpawnFile b (f - 1) ≠ 0) ∨ (f < 7 ∧ wpawnFile b (f + 1) ≠ 0)
      let b_adj := (f > 0 ∧ bpawnFile b (f - 1) ≠ 0) ∨ (f < 7 ∧ bpawnFile b (f + 1) ≠ 0)
      let sc := if wf ≠ 0 ∧ ¬w_adj then sc - 15 else sc
      if bf ≠ 0 ∧ ¬b_adj then sc + 15 else sc)
    score
  -- Passed pawn bonus
  let score := range64.foldl
    (fun sc sq =>
      let p := b.board sq
      if p = 1 then
        let f := sq_file sq
        let r := sq_rank sq
        let passed := (range8.filter (fun rr => r < rr)).all fun rr =>
          (range8.filter (fun ff => f - 1 ≤ ff ∧ ff ≤ f + 1)).all fun ff =>
            b.board (make_sq ff rr) ≠ -1
        if passed then sc + 20 + 10 * r else sc
      else if p = -1 then
        let f := sq_file sq
        let r := sq_rank sq
        let passed := (range8.filter (fun rr => rr < r)).all fun rr =>
          (range8.filter (fun ff => f - 1 ≤ ff ∧ ff ≤ f + 1)).all fun ff =>
            b.board (make_sq ff rr) ≠ 1
        if passed then sc - (20 + 10 * (7 - r)) else sc
      else sc)
    score
  -- Rook on open / semi-open file
  let score := range64.foldl
    (fun sc sq =>
      let p := b.board sq
      if piece_type p ≠ 4 then sc
      else
        let f := sq_file sq
        if p > 0 then
          if wpawnFile b f = 0 ∧ bpawnFile b f = 0 then sc + 20
          else if wpawnFile b f = 0 then sc + 10 else sc
        else
          if wpawnFile b f = 0 ∧ bpawnFile b f = 0 then sc - 20
          else if bpawnFile b f = 0 then sc - 10 else sc)
    score
  -- King safety: pawn shield in middlegame
  if endgame then score
  else
    let shieldOf := fun (s : Nat) =>
      let ksq := b.king_sq s
      let kf := sq_file ksq
      let kr := sq_rank ksq
      let pawn : Int := if s = 0 then 1 else -1
      let dir : Int := if s = 0 then 1 else -1
      ([-1, 0, 1] : List Int).foldl
        (fun sh df =>
          let ff := kf + df
          if ff < 0 ∨ 7 < ff then sh
          else
            let sr := kr + dir
            let sh := if 0 ≤ sr ∧ sr < 8 ∧ b.board (make_sq ff sr) = pawn then sh + 1
                      else sh
            let sr := kr + 2 * dir
            if 0 ≤ sr ∧ sr < 8 ∧ b.board (make_sq ff sr) = pawn then sh + 1 else sh)
        (0 : Int)
    score + shieldOf 0 * 10 - shieldOf 1 * 10

/-! ## Transposition table (search.h / search.cpp lines 305-347) -/

/-- The `(int16_t)score` narrowing conversion performed by `tt_store`. -/
def wrap16 (x : Int) : Int := (x + 32768) % 65536 - 32768

/-- The `(int8_t)depth` narrowing conversion performed by `tt_store`. -/
def wrap8 (x : Int) : Int := (x + 128) % 256 - 128

structure TTEntry where
  key : Nat
  score : Int
  depth : Int
  flag : Nat
  best : Move
  deriving DecidableEq, Repr

/-- `TT_EXACT = 0`, `TT_LOWER = 1`, `TT_UPPER = 2`. -/
def TT_EXACT : Nat := 0
def TT_LOWER : Nat := 1
def TT_UPPER : Nat := 2

structure Searcher where
  tt : Nat → TTEntry
  tt_mask : Nat
  tt_hits : Nat
  tt_stores : Nat
  nodes : Nat
  killers : Nat × Nat → Move
  history : Nat × Int × Int → Int

def tt_store (S : Searcher) (key : Nat) (depth score : Int) (flag : Nat)
    (best : Move) : Searcher :=
  let idx := key &&& S.tt_mask
  let e := S.tt idx
  if e.key ≠ key ∨ depth ≥ e.depth then
    { S with
      tt := Function.update S.tt idx ⟨key, wrap16 score, wrap8 depth, flag, best⟩,
      tt_stores := S.tt_stores + 1 }
  else S

/-- `tt_probe`, with the two C++ out-parameters modelled as `Option`s
(`some v` means the reference was written with `v`, `none` that it was left
untouched): result is `(cutoff?, score out-param, best out-param)`. -/
def tt_probe (S : Searcher) (key : Nat) (depth alpha beta : Int) :
    Bool × Option Int × Option Move :=
  let e := S.tt (key &&& S.tt_mask)
  if e.key ≠ key then (false, none, none)
  else if e.depth ≥ depth then
    if e.flag = TT_EXACT then (true, some e.score, some e.best)
    else if e.flag = TT_LOWER ∧ e.score ≥ beta then (true, some e.score, some e.best)
    else if e.flag = TT_UPPER ∧ e.score ≤ alpha then (true, some e.score, some e.best)
    else (false, some e.score, some e.best)
  else (false, none, some e.best)

/-! ## Move ordering (search.cpp lines 365-400) -/

instance : Inhabited Move := ⟨Move.null⟩

def score_move (S : Searcher) (b : Board) (ply : Nat) (tt_move m : Move) : Int :=
  if m.cppEq tt_move then 10000000
  else if m.captured ≠ 0 then
    5000000 + PIECE_VAL (piece_type m.captured) * 10 -
      PIECE_VAL (piece_type (b.board m.fromSq))
  else if m.promotion ≠ 0 then 4500000 + PIECE_VAL (piece_type m.promotion)
  else if ply < MAX_PLY ∧ m.cppEq (S.killers (ply, 0)) then 4000000
  else if ply < MAX_PLY ∧ m.cppEq (S.killers (ply, 1)) then 3900000
  else S.history (piece_side (b.board m.fromSq), m.fromSq, m.toSq)

/-- The argmax scan of `sort_moves`: `best = start`, then every strictly
larger later score displaces it. -/
def bestIdxFrom (scores : List Int) (start : Nat) : Nat :=
  (List.range scores.length).foldl
    (fun best i => if start < i ∧ scores.getD i 0 > scores.getD best 0 then i else best)
    start

def swapAt {α : Type} [Inhabited α] (l : List α) (i j : Nat) : List α :=
  (l.set i (l.getD j default)).set j (l.getD i default)

/-- One partial-selection-sort step (`sort_moves(moves, scores, count, start)`). -/
def sort_moves_step (ml : List Move) (sl : List Int) (start : Nat) :
    List Move × List Int :=
  let bi := bestIdxFrom sl start
  if bi ≠ start then (swapAt ml start bi, swapAt sl start bi) else (ml, sl)

/-! ## Quiescence search (search.cpp lines 650-699) -/

/-- The capture loop of `quiescence`, parameterised by the recursive call
`qrec` (the quiescence of the next fuel level). `rem` counts the remaining
loop iterations (`count - i`). -/
def qLoop (qrec : Searcher → Board → Int → Int → Nat → Int × Searcher)
    (b : Board) (beta : Int) (ply : Nat) :
    Nat → Nat → List Move → List Int → Int → Searcher → Int × Searcher
  | 0, _, _, _, alpha, S => (alpha, S)
  | rem + 1, i, ml, sl, alpha, S =>
    let p := sort_moves_step ml sl i
    let ml := p.1
    let sl := p.2
    let m := ml.getD i Move.null
    -- SEE-like pruning: skip clearly losing captures
    if sl.getD i 0 < -200 ∧ b.in_check = false then
      qLoop qrec b beta ply rem (i + 1) ml sl alpha S
    else
      -- Legality check
      let b' := (b.make_move m).1
      if b'.is_attacked (b'.king_sq (b'.side ^^^ 1)) b'.side then
        qLoop qrec b beta ply rem (i + 1) ml sl alpha S
      else
        let r := qrec S b' (-beta) (-alpha) (ply + 1)
        let score := -r.1
        if score ≥ beta then (beta, r.2)
        else
          qLoop qrec b beta ply rem (i + 1) ml sl
            (if score > alpha then score else alpha) r.2

/-- `stand_pat`: the static evaluation from the side to move's perspective
(`if (board.side == BLACK_SIDE) stand_pat = -stand_pat`). -/
def stand_pat_of (b : Board) : Int :=
  if b.side = 1 then -(evaluate b) else evaluate b

def quiescence : Nat → Searcher → Board → Int → Int → Nat → Int × Searcher
  | 0, S, _, alpha, _, _ => (alpha, S)
  | fuel + 1, S, b, alpha, beta, ply =>
    let S := { S with nodes := S.nodes + 1 }
    let stand_pat := stand_pat_of b
    if stand_pat ≥ beta then (beta, S)
    else
      let alpha := if stand_pat > alpha then stand_pat else alpha
      -- Delta pruning
      if stand_pat + 900 < alpha then (alpha, S)
      else
        let moves := gen_captures b
        let scores := moves.map fun m =>
          PIECE_VAL (piece_type m.captured) * 10 -
            PIECE_VAL (piece_type (b.board m.fromSq))
        qLoop (quiescence fuel) b beta ply moves.length 0 moves scores alpha S

/-! ## Alpha-beta search (search.cpp lines 526-644) -/

/-- Killer/history bookkeeping performed on a beta cutoff for a quiet move
(search.cpp lines 620-636); `depth` is the possibly check-extended depth. -/
def cutoff_tables (S : Searcher) (b : Board) (m : Move) (ply : Nat)
    (depth : Int) (is_cap is_promo : Bool) : Searcher :=
  if is_cap = false ∧ is_promo = false ∧ ply < MAX_PLY then
    let S :=
      if (m.cppEq (S.killers (ply, 0))) = false then
        let k1 := Function.update S.killers (ply, 1) (S.killers (ply, 0))
        { S with killers := Function.update k1 (ply, 0) m }
      else S
    -- Since the move was unmade, board[m.from] holds the moving piece again
    let ms := piece_side (b.board m.fromSq)
    if ms ≤ 1 then
      let h := Function.update S.history (ms, m.fromSq, m.toSq)
        (S.history (ms, m.fromSq, m.toSq) + depth * depth)
      if h (ms, m.fromSq, m.toSq) > 1000000 then
        -- Aging: every entry is halved (`v >>= 1`; entries are nonnegative)
        { S with history := fun k => h k / 2 }
      else { S with history := h }
    else S
  else S

/-- The move loop of `alphabeta`, parameterised by the recursive call.
Carries `(remaining, i, moves, scores, alpha, best_score, best_move,
tt_flag, S)` and results in `(best_score, best_move, tt_flag, S)`. -/
def abLoop (abrec : Searcher → Board → Int → Int → Int → Nat → Bool → Int × Searcher)
    (b : Board) (depth beta : Int) (ply : Nat) (in_check : Bool) :
    Nat → Nat → List Move → List Int → Int → Int → Move → Nat → Searcher →
    Int × Move × Nat × Searcher
  | 0, _, _, _, _, best_score, best_move, tt_flag, S =>
    (best_score, best_move, tt_flag, S)
  | rem + 1, i, ml, sl, alpha, best_score, best_move, tt_flag, S =>
    let p := sort_moves_step ml sl i
    let ml := p.1
    let sl := p.2
    let m := ml.getD i Move.null
    let is_cap := m.captured ≠ 0
    let is_promo := m.promotion ≠ 0
    let b' := (b.make_move m).1
    let gives_check := b'.in_check
    -- Late Move Reductions (LMR)
    let r :=
      if 3 ≤ i ∧ 3 ≤ depth ∧ in_check = false ∧ gives_check = false ∧
          ¬is_cap ∧ ¬is_promo then
        let R : Int := 1 + (if 6 ≤ i then 1 else 0) + (if 6 ≤ depth then 1 else 0)
        let r1 := abrec S b' (depth - 1 - R) (-alpha - 1) (-alpha) (ply + 1) true
        let score1 := -r1.1
        if score1 > alpha then
          -- Re-search at full depth
          let r2 := abrec r1.2 b' (depth - 1) (-beta) (-alpha) (ply + 1) true
          (-r2.1, r2.2)
        else (score1, r1.2)
      else
        let r0 := abrec S b' (depth - 1) (-beta) (-alpha) (ply + 1) true
        (-r0.1, r0.2)
    let score := r.1
    let S := r.2
    let bs := if score > best_score then score else best_score
    let bm := if score > best_score then m else best_move
    if score > alpha then
      if score ≥ beta then
        (bs, bm, TT_LOWER, cutoff_tables S b m ply depth is_cap is_promo)
      else
        abLoop abrec b depth beta ply in_check rem (i + 1) ml sl score bs bm TT_EXACT S
    else
      abLoop abrec b depth beta ply in_check rem (i + 1) ml sl alpha bs bm tt_flag S

def alphabeta : Nat → Searcher → Board → Int → Int → Int → Nat → Bool →
    Int × Searcher
  | 0, S, _, _, _, _, _, _ => (0, S)
  | fuel + 1, S, b, depth, alpha, beta, ply, null_ok =>
    let S := { S with nodes := S.nodes + 1 }
    -- Draw detection
    if b.is_draw then (0, S)
    else
      -- TT lookup
      let pr := tt_probe S b.hash depth alpha beta
      let tt_best := pr.2.2.getD Move.null
      if pr.1 = true ∧ 0 < ply then (pr.2.1.getD 0, { S with tt_hits := S.tt_hits + 1 })
      -- Quiescence at leaf
      else if depth ≤ 0 then quiescence fuel S b alpha beta ply
      else
        let in_check := b.in_check
        let depth := if in_check then depth + 1 else depth -- Check extension
        -- Null-move pruning
        let nullRes : Option (Int × Searcher) :=
          if null_ok = true ∧ in_check = false ∧ 3 ≤ depth ∧ is_endgame b = false then
            let R : Int := if 6 ≤ depth then 3 else 2
            let bn := b.make_null_move.1
            let rn := alphabeta fuel S bn (depth - 1 - R) (-beta) (-beta + 1) (ply + 1) false
            some (-rn.1, rn.2)
          else none
        let S := match nullRes with
          | some rn => rn.2
          | none => S
        if (match nullRes with
            | some rn => decide (rn.1 ≥ beta)
            | none => false) then (beta, S)
        else
          -- Generate and check legal moves
          let moves := gen_legal_moves b
          if moves = [] then
            (if in_check then -(MATE_SCORE - (ply : Int)) else 0, S) -- Mate or stalemate
          else
            let scores := moves.map (score_move S b ply tt_best)
            let lr := abLoop (alphabeta fuel) b depth beta ply in_check
              moves.length 0 moves scores alpha (-INF_SCORE)
              (moves.getD 0 Move.null) TT_UPPER S
            let S := tt_store lr.2.2.2 b.hash depth lr.1 lr.2.2.1 lr.2.1
            (lr.1, S)

/-! ## Root search and iterative deepening (search.cpp lines 406-520) -/

/-- The alpha-beta window `root_search` actually searches with: the function
takes no window parameters and initialises `alpha = -INF_SCORE`,
`beta = INF_SCORE` (search.cpp line 497) no matter what the iterative
deepening loop computed. -/
def root_search_window : Int × Int := (-INF_SCORE, INF_SCORE)

def rootLoop (abrec : Searcher → Board → Int → Int → Int → Nat → Bool → Int × Searcher)
    (b : Board) (depth : Int) :
    Nat → Nat → List Move → List Int → Int → Int → Int → Move → Searcher →
    Int × Move × Searcher
  | 0, _, _, _, _, _, best_score, best_move, S => (best_score, best_move, S)
  | rem + 1, i, ml, sl, alpha, beta, best_score, best_move, S =>
    let p := sort_moves_step ml sl i
    let ml := p.1
    let sl := p.2
    let m := ml.getD i Move.null
    let b' := (b.make_move m).1
    let r := abrec S b' (depth - 1) (-beta) (-alpha) 1 true
    let score := -r.1
    let S := r.2
    let bs := if score > best_score then score else best_score
    let bm := if score > best_score then m else best_move
    rootLoop abrec b depth rem (i + 1) ml sl
      (if score > alpha then score else alpha) beta bs bm S

def root_search (fuel : Nat) (S : Searcher) (b : Board) (depth : Int) :
    Int × Move × Searcher :=
  let moves := gen_legal_moves b
  if moves = [] then
    ((if b.in_check then -MATE_SCORE else 0), Move.null, S)
  else
    -- The root probe's cutoff result is ignored; only the move is used
    let pr := tt_probe S b.hash 0 (-INF_SCORE) INF_SCORE
    let tt_best := pr.2.2.getD Move.null
    let scores := moves.map (score_move S b 0 tt_best)
    let w := root_search_window
    let lr := rootLoop (alphabeta fuel) b depth moves.length 0 moves scores
      w.1 w.2 (-INF_SCORE) (moves.getD 0 Move.null) S
    let S := tt_store lr.2.2 b.hash depth lr.1 TT_EXACT lr.2.1
    (lr.1, lr.2.1, S)

/-- One iteration of the iterative-deepening loop of `Searcher::search`
(search.cpp lines 429-448, with the time-up checks removed — see the header
comment): `prev_score` is `result.score` from the previous depth. The
aspiration `alpha`/`beta` are computed for depth ≥ 5 but `root_search`
receives no window; they only decide whether the depth is searched again. -/
def search_iteration (fuel : Nat) (S : Searcher) (b : Board)
    (depth prev_score : Int) : Int × Move × Searcher :=
  if 5 ≤ depth then
    let delta : Int := 50
    let alpha := prev_score - delta
    let beta := prev_score + delta
    let r := root_search fuel S b depth
    -- If fell outside window, re-search with full window
    if r.1 ≤ alpha ∨ r.1 ≥ beta then root_search fuel r.2.2 b depth
    else r
  else root_search fuel S b depth

/-- The exact score the null-move step of `alphabeta` at fuel `fuel + 1`
compares against `beta` (search.cpp lines 551-558), for a node that is not
in check (so the check extension leaves `depth` unchanged). -/
def null_search_score (fuel : Nat) (S : Searcher) (b : Board)
    (depth beta : Int) (ply : Nat) : Int :=
  let R : Int := if 6 ≤ depth then 3 else 2
  let rn := alphabeta fuel { S with nodes := S.nodes + 1 } b.make_null_move.1
    (depth - 1 - R) (-beta) (-beta + 1) (ply + 1) false
  Neg.neg rn.1

/-! ## XOR-fold view of the Zobrist hash (proof infrastructure) -/

/-- Fold of XOR over a list of squares. -/
def xfold (g : Int → Nat) (l : List Int) : Nat :=
  l.foldl (fun h sq => h ^^^ g sq) 0

/-- The contribution of one square to the piece fold of `compute_hash`. -/
def pcontrib (bd : Int → Int) (sq : Int) : Nat :=
  if bd sq ≠ 0 then Z_PIECE (piece_index (bd sq)) sq else 0

/-! ## Facts about generated moves (proof infrastructure)

`GenFacts` collects, for each of the four move kinds the generators emit,
exactly the information recorded at the emission site. Its proof is the
inversion of the generators; make/unmake reasoning consumes it. -/

def quietShape (b : Board) (m : Move) : Prop :=
  m.flags = 0 ∧ m.captured = b.board m.toSq ∧
  ((b.board m.fromSq = piece_sign b.side * 1 ∧
      (m.promotion = 0 ∨ m.promotion = piece_sign b.side * 5 ∨
       m.promotion = piece_sign b.side * 4 ∨ m.promotion = piece_sign b.side * 3 ∨
       m.promotion = piece_sign b.side * 2)) ∨
   (b.board m.fromSq = piece_sign b.side * 2 ∧ m.promotion = 0) ∨
   ((b.board m.fromSq = piece_sign b.side * 3 ∨ b.board m.fromSq = piece_sign b.side * 4 ∨
     b.board m.fromSq = piece_sign b.side * 5) ∧ m.promotion = 0) ∨
   (m.fromSq = b.king_sq b.side ∧ m.promotion = 0))

def doubleShape (b : Board) (m : Move) : Prop :=
  m.flags = FL_DOUBLE ∧ b.board m.fromSq = piece_sign b.side * 1 ∧
  m.captured = 0 ∧ b.board m.toSq = 0 ∧ m.promotion = 0

def epShape (b : Board) (m : Move) : Prop :=
  m.flags = FL_EP ∧ m.toSq = b.ep_square ∧ m.captured = -(piece_sign b.side) * 1 ∧
  b.board m.fromSq = piece_sign b.side * 1 ∧ m.promotion = 0 ∧
  make_sq (sq_file m.toSq) (sq_rank m.fromSq) = m.toSq - piece_sign b.side * 8 ∧
  sq_file m.toSq ≠ sq_file m.fromSq ∧ sq_rank m.toSq ≠ sq_rank m.fromSq

def castleShape (b : Board) (m : Move) : Prop :=
  m.flags = FL_CASTLE ∧ m.captured = 0 ∧ m.promotion = 0 ∧
  b.is_attacked (b.king_sq b.side) (b.side ^^^ 1) = false ∧
  ((b.side = 0 ∧ m.fromSq = 4 ∧
     ((m.toSq = 6 ∧ b.castling &&& 1 ≠ 0 ∧ b.board 5 = 0 ∧ b.board 6 = 0 ∧
        b.is_attacked 5 1 = false ∧ b.is_attacked 6 1 = false) ∨
      (m.toSq = 2 ∧ b.castling &&& 2 ≠ 0 ∧ b.board 3 = 0 ∧ b.board 2 = 0 ∧
        b.board 1 = 0 ∧ b.is_attacked 3 1 = false ∧ b.is_attacked 2 1 = false))) ∨
   (b.side ≠ 0 ∧ m.fromSq = 60 ∧
     ((m.toSq = 62 ∧ b.castling &&& 4 ≠ 0 ∧ b.board 61 = 0 ∧ b.board 62 = 0 ∧
        b.is_attacked 61 0 = false ∧ b.is_attacked 62 0 = false) ∨
      (m.toSq = 58 ∧ b.castling &&& 8 ≠ 0 ∧ b.board 59 = 0 ∧ b.board 58 = 0 ∧
        b.board 57 = 0 ∧ b.is_attacked 59 0 = false ∧ b.is_attacked 58 0 = false))))

structure GenFacts (b : Board) (m : Move) : Prop where
  ne : m.fromSq ≠ m.toSq
  from_range : (0 ≤ m.fromSq ∧ m.fromSq < 64) ∨ m.fromSq = b.king_sq b.side
  to_range : 0 ≤ m.toSq ∧ m.toSq < 64
  shape : quietShape b m ∨ doubleShape b m ∨ epShape b m ∨ castleShape b m

/-- Position consistency: the facts about the side to move's king, rooks and
en-passant square that hold in every position reachable by legal play from a
semantically valid FEN, phrased as the exact pre-conditions make/unmake
consume. (`set_fen` itself does not enforce them: a FEN may assert castling
rights without the rook, or an en-passant square that is occupied.) -/
structure Consistent (b : Board) : Prop where
  side_le : b.side ≤ 1
  king_lb : 0 ≤ b.king_sq b.side
  king_ub : b.king_sq b.side < 64
  king_pc : b.board (b.king_sq b.side) = piece_sign b.side * 6
  castle_wk : b.side = 0 → b.castling &&& 1 ≠ 0 → b.board 7 = 4 ∧ b.king_sq 0 = 4
  castle_wq : b.side = 0 → b.castling &&& 2 ≠ 0 → b.board 0 = 4 ∧ b.king_sq 0 = 4
  castle_bk : b.side = 1 → b.castling &&& 4 ≠ 0 → b.board 63 = -4 ∧ b.king_sq 1 = 60
  castle_bq : b.side = 1 → b.castling &&& 8 ≠ 0 → b.board 56 = -4 ∧ b.king_sq 1 = 60
  ep_w : b.side = 0 → 0 ≤ b.ep_square →
    b.board b.ep_square = 0 ∧ b.board (b.ep_square - 8) = -1
  ep_b : b.side = 1 → 0 ≤ b.ep_square →
    b.board b.ep_square = 0 ∧ b.board (b.ep_square + 8) = 1

/-! ## Spec-side definitions (claim statements) -/

/-- Claim C8's count: occurrences of the current hash strictly earlier in the
position history, restricted to entries at the same parity as the current
entry (stack position 0); "earlier at the same parity" is stack position
`i ≥ 2` with `i` even. -/
def sameParityEarlierOccurrences (l : List Nat) (h : Nat) : Nat :=
  ((List.range l.length).filter fun i => 2 ≤ i ∧ i % 2 = 0 ∧ l.getD i 0 = h).length

/-- Queens on the board, both colours together (what `is_endgame` counts). -/
def total_queens (b : Board) : Nat :=
  range64.countP fun sq => piece_type (b.board sq) == 5

/-- Minor pieces on the board, both colours together. -/
def total_minors (b : Board) : Nat :=
  range64.countP fun sq => piece_type (b.board sq) == 2 || piece_type (b.board sq) == 3

def white_queens (b : Board) : Nat := range64.countP fun sq => b.board sq == 5
def black_queens (b : Board) : Nat := range64.countP fun sq => b.board sq == -5
def white_minors (b : Board) : Nat :=
  range64.countP fun sq => b.board sq == 2 || b.board sq == 3
def black_minors (b : Board) : Nat :=
  range64.countP fun sq => b.board sq == -2 || b.board sq == -3

/-- Claim C4's phase condition, following the spec's words: "either side has
no queens, OR both sides have at most 2 queens and at most 2 minor pieces
each". Compared against the source's `is_endgame` (which counts colour-blind
totals). -/
def claimedEndgame (b : Board) : Prop :=
  (white_queens b = 0 ∨ black_queens b = 0) ∨
  (white_queens b ≤ 2 ∧ black_queens b ≤ 2 ∧ white_minors b ≤ 2 ∧ black_minors b ≤ 2)

/-! ## Concrete boards and searcher states (witness / counterexample inputs) -/

/-- A searcher in its just-constructed state: every transposition entry has
key 0 (the constructor only clears the keys; the remaining entry fields are
modelled as zero), killers and history cleared, a 64 MB table
(2^21 entries of 24 bytes each fit the budget, mask `2^21 - 1`). -/
def S0 : Searcher :=
  { tt := fun _ => ⟨0, 0, 0, 0, Move.null⟩, tt_mask := 2 ^ 21 - 1,
    tt_hits := 0, tt_stores := 0, nodes := 0,
    killers := fun _ => Move.null, history := fun _ => 0 }

/-- White: Ka1. Black: Kh8. A minimal legal position. -/
def bareKingsFn : Int → Int := fun sq =>
  if sq = 0 then 6 else if sq = 63 then -6 else 0

/-- The bare-kings position with a FULL position history (1024 entries):
`make_move` must skip its history push here. -/
def c2Board : Board :=
  { board := bareKingsFn, side := 0, castling := 0, ep_square := -1,
    halfmove := 0, fullmove := 1, hash := zobristOf bareKingsFn 0 0 (-1),
    king_sq := fun s => if s = 0 then 0 else 63,
    pos_history := List.replicate 1024 0 }

/-- Ka1-b1, a legal king move of `c2Board`. -/
def c2Move : Move := ⟨0, 1, 0, 0, 0⟩

/-- The bare-kings position with a one-entry history (as `set_fen` leaves
it). -/
def c2wBoard : Board :=
  { c2Board with pos_history := [zobristOf bareKingsFn 0 0 (-1)] }

/-- White: Kе1, Qd1, Nb1, Ng1, Nc3. Black: Ke8. One queen and three minors
in total, but black has no queens. -/
def c4Fn : Int → Int := fun sq =>
  if sq = 4 then 6 else if sq = 3 then 5 else if sq = 1 then 2
  else if sq = 6 then 2 else if sq = 18 then 2 else if sq = 60 then -6 else 0

def c4Board : Board :=
  { board := c4Fn, side := 0, castling := 0, ep_square := -1,
    halfmove := 0, fullmove := 1, hash := zobristOf c4Fn 0 0 (-1),
    king_sq := fun s => if s = 0 then 4 else 60, pos_history := [] }

/-- White: Ke1, Ra1, Rh1, full white castling rights. Black: Ke8. Both white
castlings are available. -/
def c6Fn : Int → Int := fun sq =>
  if sq = 4 then 6 else if sq = 0 then 4 else if sq = 7 then 4
  else if sq = 60 then -6 else 0

def c6Board : Board :=
  { board := c6Fn, side := 0, castling := 3, ep_square := -1,
    halfmove := 0, fullmove := 1, hash := zobristOf c6Fn 0 3 (-1),
    king_sq := fun s => if s = 0 then 4 else 60, pos_history := [] }

/-- Stalemate with heavy material still on the board: White (to move) has
only Ka1, stalemated by the black queen on c2; black also has knights f6,
h6, g8 and Ke8, so `is_endgame` is false and null-move pruning runs. -/
def c7sFn : Int → Int := fun sq =>
  if sq = 0 then 6 else if sq = 10 then -5 else if sq = 45 then -2
  else if sq = 47 then -2 else if sq = 62 then -2 else if sq = 60 then -6 else 0

def c7sBoard : Board :=
  { board := c7sFn, side := 0, castling := 0, ep_square := -1,
    halfmove := 0, fullmove := 1, hash := zobristOf c7sFn 0 0 (-1),
    king_sq := fun s => if s = 0 then 0 else 60,
    pos_history := [zobristOf c7sFn 0 0 (-1)] }

/-- Checkmate: White (to move) Ka1 is mated by Qb2 guarded by Kb3. -/
def c7mFn : Int → Int := fun sq =>
  if sq = 0 then 6 else if sq = 9 then -5 else if sq = 17 then -6 else 0

def c7mBoard : Board :=
  { board := c7mFn, side := 0, castling := 0, ep_square := -1,
    halfmove := 0, fullmove := 1, hash := zobristOf c7mFn 0 0 (-1),
    king_sq := fun s => if s = 0 then 0 else 17,
    pos_history := [zobristOf c7mFn 0 0 (-1)] }

/-! # Theorems -/

/-! ## C1 — aspiration windows -/

/-- C1 (code bug exhibit): at every iterative-deepening depth the root search
runs with the full window. `root_search` takes no window parameters: the
window it searches with is `root_search_window = (-INF_SCORE, INF_SCORE)`
(search.cpp line 497), never the aspiration window
`(prev_score - 50, prev_score + 50)` that `Searcher::search` computes at
depth ≥ 5 — those two locals only decide whether the depth is re-searched
(with the same full window). -/
theorem aspiration_window_never_applied :
    root_search_window = (-INF_SCORE, INF_SCORE) ∧
    ∀ prev_score : Int, root_search_window ≠ (prev_score - 50, prev_score + 50) := by
  refine ⟨rfl, fun prev h => ?_⟩
  rw [root_search_window, Prod.mk.injEq] at h
  rw [INF_SCORE] at h
  omega

/-! ## C10 — position-history bounds -/

/-- C10: `make_move` pushes the new hash exactly when the history holds
fewer than `MAX_HISTORY = 1024` entries and silently skips the push when it
is full; `unmake_move` pops one entry when the history is nonempty and
leaves an empty history empty; consequently `pos_history_count` stays in
`0..1024`. -/
theorem pos_history_access_bounds (b : Board) (m : Move) (u : UndoInfo) :
    (b.pos_history_count < MAX_HISTORY →
      (b.make_move m).1.pos_history = (b.make_move m).1.hash :: b.pos_history) ∧
    (MAX_HISTORY ≤ b.pos_history_count →
      (b.make_move m).1.pos_history = b.pos_history) ∧
    (b.pos_history_count ≤ MAX_HISTORY →
      (b.make_move m).1.pos_history_count ≤ MAX_HISTORY) ∧
    ((b.unmake_move m u).pos_history = b.pos_history.tail) ∧
    (0 < b.pos_history_count →
      (b.unmake_move m u).pos_history_count = b.pos_history_count - 1) ∧
    (b.pos_history_count = 0 → (b.unmake_move m u).pos_history_count = 0) := by
  have hmk : (b.make_move m).1.pos_history =
      if b.pos_history.length < MAX_HISTORY then
        (b.make_move m).1.hash :: b.pos_history
      else b.pos_history := rfl
  have hum : (b.unmake_move m u).pos_history = b.pos_history.tail := rfl
  simp only [Board.pos_history_count] at *
  refine ⟨fun h => ?_, fun h => ?_, fun h => ?_, hum, fun h => ?_, fun h => ?_⟩
  · rw [hmk, if_pos h]
  · rw [hmk, if_neg (Nat.not_lt.mpr h)]
  · rw [hmk]
    split
    · simp only [List.length_cons]
      omega
    · exact h
  · rw [hum, List.length_tail]
  · rw [hum, List.length_tail, h]

/-! ## C5 — transposition-table probe -/

/-- C5: `tt_probe` writes the stored best move to its out-parameter exactly
when the entry's key matches (also when no cutoff is returned), and returns
a cutoff (with the stored score written) exactly when the keys match, the
entry's depth is at least the requested depth, and the bound fits the
window: EXACT always, LOWER only when `score ≥ beta`, UPPER only when
`score ≤ alpha`. -/
theorem tt_probe_spec (S : Searcher) (key : Nat) (depth alpha beta : Int) :
    ((tt_probe S key depth alpha beta).2.2 =
      if (S.tt (key &&& S.tt_mask)).key = key then some (S.tt (key &&& S.tt_mask)).best
      else none) ∧
    ((tt_probe S key depth alpha beta).1 = true ↔
      ((S.tt (key &&& S.tt_mask)).key = key ∧
       depth ≤ (S.tt (key &&& S.tt_mask)).depth ∧
       ((S.tt (key &&& S.tt_mask)).flag = TT_EXACT ∨
        ((S.tt (key &&& S.tt_mask)).flag = TT_LOWER ∧
          beta ≤ (S.tt (key &&& S.tt_mask)).score) ∨
        ((S.tt (key &&& S.tt_mask)).flag = TT_UPPER ∧
          (S.tt (key &&& S.tt_mask)).score ≤ alpha)))) ∧
    ((tt_probe S key depth alpha beta).1 = true →
      (tt_probe S key depth alpha beta).2.1 = some (S.tt (key &&& S.tt_mask)).score) := by
  simp only [tt_probe, TT_EXACT, TT_LOWER, TT_UPPER, ge_iff_le]
  split_ifs with h1 h2 h3 h4 h5 <;> simp_all

/-! ## C4 — endgame phase test -/

theorem decide_and_eq (p q : Prop) [Decidable p] [Decidable q] :
    decide (p ∧ q) = (decide p && decide q) := by
  by_cases hp : p <;> by_cases hq : q <;> simp [hp, hq]

theorem endgame_fold_counts (bd : Int → Int) (l : List Int) :
    ∀ a c : Nat,
      (l.foldl
        (fun (qm : Nat × Nat) sq =>
          let pt := piece_type (bd sq)
          ((if pt = 5 then qm.1 + 1 else qm.1),
           (if pt = 2 ∨ pt = 3 then qm.2 + 1 else qm.2)))
        (a, c)) =
      (a + l.countP (fun sq => piece_type (bd sq) == 5),
       c + l.countP (fun sq => piece_type (bd sq) == 2 || piece_type (bd sq) == 3)) := by
  induction l with
  | nil => simp
  | cons x l ih =>
    intro a c
    simp only [List.foldl_cons, List.countP_cons]
    rw [ih]
    simp only [Prod.mk.injEq]
    constructor
    · by_cases h : piece_type (bd x) = 5 <;> simp [h] <;> omega
    · by_cases h2 : piece_type (bd x) = 2 <;> by_cases h3 : piece_type (bd x) = 3 <;>
        simp [h2, h3] <;> omega

/-- C4 (amended): `is_endgame` holds exactly when the board carries no
queens at all, or at most 2 queens and at most 2 minor pieces in total —
the counts are colour-blind totals over both sides, not per-side counts. -/
theorem is_endgame_total_counts (b : Board) :
    is_endgame b = true ↔
      total_queens b = 0 ∨ (total_queens b ≤ 2 ∧ total_minors b ≤ 2) := by
  rw [is_endgame]
  rw [endgame_fold_counts b.board range64 0 0]
  simp [total_queens, total_minors]

/-- C4 (counterexample): in `c4Board` black has no queens, so the claim's
per-side phase condition holds, yet `is_endgame` is false (one queen and
three minors in total). -/
theorem is_endgame_not_per_side :
    claimedEndgame c4Board ∧ is_endgame c4Board = false := by
  constructor
  · rw [claimedEndgame]
    left
    right
    decide
  · decide

/-! ## C8 — draw detection -/

theorem repScan_countP (h : Nat) :
    ∀ (n : Nat) (l : List Nat), l.length ≤ n →
      repScan h l =
        (List.range l.length).countP
          (fun i => decide (i % 2 = 0 ∧ l.getD i 0 = h)) := by
  intro n
  induction n with
  | zero =>
    intro l hl
    rw [List.length_eq_zero.mp (Nat.le_zero.mp hl)]
    rfl
  | succ n ih =>
    intro l hl
    match l with
    | [] => rfl
    | [x] =>
      simp only [repScan, List.length_cons, List.length_nil, List.range_succ,
        List.range_zero, List.nil_append, List.countP_cons, List.countP_nil]
      by_cases hx : x = h <;> simp [hx]
    | x :: y :: rest =>
      have hr : rest.length ≤ n := by
        simp only [List.length_cons] at hl
        omega
      have hrange : List.range (rest.length + 1 + 1) =
          0 :: 1 :: (List.range rest.length).map (fun i => i + 2) := by
        rw [List.range_succ_eq_map, List.range_succ_eq_map, List.map_cons,
          List.map_map]
        refine congrArg _ (congrArg _ (List.map_congr_left fun i _ => ?_))
        simp [Function.comp_def]
      simp only [List.length_cons, hrange, List.countP_cons, List.countP_map]
      rw [repScan, ih rest hr]
      have hcong : (List.range rest.length).countP
            ((fun i => decide (i % 2 = 0 ∧ (x :: y :: rest).getD i 0 = h)) ∘
              (fun i => i + 2)) =
          (List.range rest.length).countP
            (fun i => decide (i % 2 = 0 ∧ rest.getD i 0 = h)) := by
        refine List.countP_congr fun i _ => ?_
        simp only [Function.comp_apply, List.getD_cons_succ, decide_eq_true_eq]
        have h2 : (i + 2) % 2 = i % 2 := by omega
        rw [h2]
      rw [hcong]
      by_cases hx : x = h <;> simp [hx, Nat.add_comm]

theorem count_repetitions_spec (b : Board) :
    b.count_repetitions = sameParityEarlierOccurrences b.pos_history b.hash := by
  rw [Board.count_repetitions, sameParityEarlierOccurrences,
    ← List.countP_eq_length_filter]
  match b.pos_history with
  | [] => rfl
  | [x] =>
    simp only [List.drop_succ_cons, List.drop_nil, List.length_cons,
      List.length_nil, List.range_succ, List.range_zero, List.nil_append,
      List.countP_cons, List.countP_nil, repScan]
    simp
  | x :: y :: rest =>
    simp only [List.drop_succ_cons, List.drop_zero]
    rw [repScan_countP b.hash rest.length rest le_rfl]
    have hrange : List.range (rest.length + 1 + 1) =
        0 :: 1 :: (List.range rest.length).map (fun i => i + 2) := by
      rw [List.range_succ_eq_map, List.range_succ_eq_map, List.map_cons,
        List.map_map]
      refine congrArg _ (congrArg _ (List.map_congr_left fun i _ => ?_))
      simp [Function.comp_def]
    simp only [List.length_cons, hrange, List.countP_cons, List.countP_map]
    have hcong : (List.range rest.length).countP
          ((fun i => decide (2 ≤ i ∧ i % 2 = 0 ∧ (x :: y :: rest).getD i 0 = b.hash)) ∘
            (fun i => i + 2)) =
        (List.range rest.length).countP
          (fun i => decide (i % 2 = 0 ∧ rest.getD i 0 = b.hash)) := by
      refine List.countP_congr fun i _ => ?_
      simp only [Function.comp_apply, List.getD_cons_succ, decide_eq_true_eq]
      have h2 : (i + 2) % 2 = i % 2 := by omega
      rw [h2]
      constructor
      · rintro ⟨-, hp, hg⟩
        exact ⟨hp, hg⟩
      · rintro ⟨hp, hg⟩
        exact ⟨by omega, hp, hg⟩
    rw [hcong]
    simp

/-- C8: `is_draw` is true exactly when the halfmove clock has reached 100,
or the current hash already occurs at least twice earlier in the position
history among the entries at the same parity as the current entry (same
side to move) — i.e. the current position is at least the third such
occurrence; and `count_repetitions` is exactly that same-parity count. -/
theorem is_draw_spec (b : Board) :
    b.count_repetitions = sameParityEarlierOccurrences b.pos_history b.hash ∧
    (b.is_draw = true ↔
      100 ≤ b.halfmove ∨
        2 ≤ sameParityEarlierOccurrences b.pos_history b.hash) := by
  refine ⟨count_repetitions_spec b, ?_⟩
  rw [Board.is_draw, ← count_repetitions_spec b]
  split_ifs with h1 h2 <;> simp_all

/-! ## C9 — quiescence is fail-hard -/

theorem qLoop_bound
    (qrec : Searcher → Board → Int → Int → Nat → Int × Searcher)
    (Hq : ∀ S b (alpha beta : Int) ply, alpha ≤ beta →
      alpha ≤ (qrec S b alpha beta ply).1 ∧ (qrec S b alpha beta ply).1 ≤ beta)
    (b : Board) (beta : Int) (ply : Nat) :
    ∀ (rem i : Nat) (ml : List Move) (sl : List Int) (alpha : Int) (S : Searcher),
      alpha ≤ beta →
      alpha ≤ (qLoop qrec b beta ply rem i ml sl alpha S).1 ∧
      (qLoop qrec b beta ply rem i ml sl alpha S).1 ≤ beta := by
  intro rem
  induction rem with
  | zero =>
    intro i ml sl alpha S hab
    exact ⟨le_refl _, hab⟩
  | succ rem ih =>
    intro i ml sl alpha S hab
    rw [qLoop]
    dsimp only
    split
    · exact ih _ _ _ _ _ hab
    · split
      · exact ih _ _ _ _ _ hab
      · have hchild := Hq S
          ((b.make_move ((sort_moves_step ml sl i).1.getD i Move.null)).1)
          (-beta) (-alpha) (ply + 1) (by omega)
        split_ifs with hge hgt
        · exact ⟨hab, le_refl _⟩
        · have := ih (i + 1) ((sort_moves_step ml sl i).1)
            ((sort_moves_step ml sl i).2)
            (-(qrec S ((b.make_move ((sort_moves_step ml sl i).1.getD i
              Move.null)).1) (-beta) (-alpha) (ply + 1)).1)
            (qrec S ((b.make_move ((sort_moves_step ml sl i).1.getD i
              Move.null)).1) (-beta) (-alpha) (ply + 1)).2 (by omega)
          exact ⟨by omega, this.2⟩
        · exact ih _ _ _ _ _ hab

theorem quiescence_bounds :
    ∀ (fuel : Nat) (S : Searcher) (b : Board) (alpha beta : Int) (ply : Nat),
      alpha ≤ beta →
      alpha ≤ (quiescence fuel S b alpha beta ply).1 ∧
      (quiescence fuel S b alpha beta ply).1 ≤ beta := by
  intro fuel
  induction fuel with
  | zero =>
    intro S b alpha beta ply hab
    exact ⟨le_refl _, hab⟩
  | succ fuel ih =>
    intro S b alpha beta ply hab
    rw [quiescence]
    dsimp only
    by_cases h1 : stand_pat_of b ≥ beta
    · rw [if_pos h1]
      exact ⟨hab, le_refl _⟩
    · rw [if_neg h1]
      have haa : alpha ≤ (if stand_pat_of b > alpha then stand_pat_of b else alpha) ∧
          (if stand_pat_of b > alpha then stand_pat_of b else alpha) ≤ beta := by
        split <;> omega
      by_cases h2 : stand_pat_of b + 900 <
          (if stand_pat_of b > alpha then stand_pat_of b else alpha)
      · rw [if_pos h2]
        exact haa
      · rw [if_neg h2]
        have := qLoop_bound (quiescence fuel) ih b beta ply
          (gen_captures b).length 0 (gen_captures b)
          ((gen_captures b).map fun m => PIECE_VAL (piece_type m.captured) * 10 -
            PIECE_VAL (piece_type (b.board m.fromSq)))
          (if stand_pat_of b > alpha then stand_pat_of b else alpha)
          { S with nodes := S.nodes + 1 } haa.2
        exact ⟨le_trans haa.1 this.1, this.2⟩

/-- C9: with `alpha ≤ beta` (and the time limit never expiring — the
embedding fixes `max_time ≤ 0`), `quiescence` is fail-hard: its value `v`
satisfies `alpha ≤ v ≤ beta`; it is exactly `beta` when the stand-pat
reaches `beta`, and exactly `alpha` on the delta-pruning early return. -/
theorem quiescence_fail_hard (fuel : Nat) (S : Searcher) (b : Board)
    (alpha beta : Int) (ply : Nat) (hab : alpha ≤ beta) (hf : 1 ≤ fuel) :
    (alpha ≤ (quiescence fuel S b alpha beta ply).1 ∧
      (quiescence fuel S b alpha beta ply).1 ≤ beta) ∧
    (beta ≤ stand_pat_of b → (quiescence fuel S b alpha beta ply).1 = beta) ∧
    (stand_pat_of b < beta → stand_pat_of b ≤ alpha →
      stand_pat_of b + 900 < alpha →
      (quiescence fuel S b alpha beta ply).1 = alpha) := by
  obtain ⟨fuel, rfl⟩ : ∃ f, fuel = f + 1 := ⟨fuel - 1, by omega⟩
  refine ⟨quiescence_bounds _ S b alpha beta ply hab, fun hsp => ?_,
    fun h1 h2 h3 => ?_⟩
  · rw [quiescence]
    rw [if_pos (by omega : stand_pat_of b ≥ beta)]
  · rw [quiescence]
    rw [if_neg (by omega : ¬stand_pat_of b ≥ beta)]
    have halpha : (if stand_pat_of b > alpha then stand_pat_of b else alpha) = alpha := by
      rw [if_neg (by omega : ¬stand_pat_of b > alpha)]
    rw [halpha, if_pos h3]

/-- Witness for C9 at a concrete input. -/
theorem quiescence_fail_hard_witness :
    ((0 : Int) ≤ (quiescence 1 S0 c2wBoard 0 10 0).1 ∧
      (quiescence 1 S0 c2wBoard 0 10 0).1 ≤ 10) ∧
    (10 ≤ stand_pat_of c2wBoard → (quiescence 1 S0 c2wBoard 0 10 0).1 = 10) ∧
    (stand_pat_of c2wBoard < 10 → stand_pat_of c2wBoard ≤ 0 →
      stand_pat_of c2wBoard + 900 < 0 →
      (quiescence 1 S0 c2wBoard 0 10 0).1 = 0) :=
  quiescence_fail_hard 1 S0 c2wBoard 0 10 0 (by decide) (by decide)

/-! ## C7 — mate and stalemate scores in `alphabeta` -/

/-- C7 (amended): when `alphabeta` at depth ≥ 1 reaches a node that is not a
draw and is not resolved by a transposition-table cutoff, and the node has
no legal moves, it returns `-(MATE_SCORE - ply)` when the side to move is in
check; when not in check it returns 0 (stalemate) PROVIDED the node is also
not cut off first by null-move pruning — the null-move step runs before
move generation and can return `beta` at a stalemate node. -/
theorem alphabeta_no_legal_moves (fuel : Nat) (S : Searcher) (b : Board)
    (depth alpha beta : Int) (ply : Nat) (null_ok : Bool)
    (hdraw : b.is_draw = false)
    (htt : (tt_probe S b.hash depth alpha beta).1 = true → ply = 0)
    (hdepth : 1 ≤ depth)
    (hmoves : gen_legal_moves b = []) :
    (b.in_check = true →
      (alphabeta (fuel + 1) S b depth alpha beta ply null_ok).1 =
        -(MATE_SCORE - (ply : Int))) ∧
    (b.in_check = false →
      (null_ok = false ∨ depth < 3 ∨ is_endgame b = true ∨
        null_search_score fuel S b depth beta ply < beta) →
      (alphabeta (fuel + 1) S b depth alpha beta ply null_ok).1 = 0) := by
  have hprobe : tt_probe { S with nodes := S.nodes + 1 } b.hash depth alpha beta =
      tt_probe S b.hash depth alpha beta := rfl
  rw [alphabeta]
  dsimp only
  rw [hdraw]
  simp only [Bool.false_eq_true, if_false, hprobe]
  have hcut : ¬((tt_probe S b.hash depth alpha beta).1 = true ∧ 0 < ply) := by
    rintro ⟨h1, h2⟩
    have := htt h1
    omega
  rw [if_neg hcut, if_neg (by omega : ¬depth ≤ 0)]
  constructor
  · intro hic
    rw [hic]
    simp only [if_true]
    rw [if_neg (fun hc => by simp at hc)]
    rw [if_pos hmoves]
  · intro hic hnull
    rw [hic]
    simp only [Bool.false_eq_true, if_false]
    by_cases hcond : null_ok = true ∧ True ∧ 3 ≤ depth ∧ is_endgame b = false
    · rw [if_pos hcond]
      dsimp only
      have hscore : null_search_score fuel S b depth beta ply < beta := by
        rcases hnull with h | h | h | h
        · rw [h] at hcond
          exact absurd hcond.1 (by simp)
        · exact absurd hcond.2.2.1 (by omega)
        · rw [h] at hcond
          exact absurd hcond.2.2.2 (by simp)
        · exact h
      rw [null_search_score] at hscore
      rw [if_neg ?_]
      · rw [if_pos hmoves]
      · simp only [decide_eq_true_eq]
        omega
    · rw [if_neg hcond]
      dsimp only
      rw [if_neg (by simp)]
      rw [if_pos hmoves]

/-- Witness for C7 at a concrete checkmate: `alphabeta` returns
`-(MATE_SCORE - ply)` at the mated node `c7mBoard` (ply 2). -/
theorem alphabeta_no_legal_moves_witness :
    c7mBoard.in_check = true ∧
    (alphabeta 5 S0 c7mBoard 3 (-3000) (-2500) 2 true).1 =
      -(MATE_SCORE - (2 : Int)) :=
  ⟨by decide,
   (alphabeta_no_legal_moves 4 S0 c7mBoard 3 (-3000) (-2500) 2 true
      (by decide) (fun h => absurd h (by decide)) (by decide) (by decide)).1
      (by decide)⟩

/-- C7 (counterexample): `c7sBoard` is a stalemate (no legal moves, not in
check, no draw, no transposition cutoff) reached at depth 3 ≥ 1, yet
`alphabeta` returns `beta = -2500`, not the 0 the claim requires: null-move
pruning cuts the node off before the no-legal-moves branch is reached. -/
theorem alphabeta_stalemate_not_zero :
    gen_legal_moves c7sBoard = [] ∧
    c7sBoard.in_check = false ∧
    c7sBoard.is_draw = false ∧
    (tt_probe S0 c7sBoard.hash 3 (-3000) (-2500)).1 = false ∧
    (alphabeta 5 S0 c7sBoard 3 (-3000) (-2500) 1 true).1 = -2500 ∧
    (-2500 : Int) ≠ 0 :=
  ⟨by decide, by decide, by decide, by decide, by decide, by decide⟩

/-! ## Inversion of the move generators -/

theorem mem_range64 {sq : Int} : sq ∈ range64 ↔ 0 ≤ sq ∧ sq < 64 := by
  constructor
  · intro h
    rw [range64] at h
    obtain ⟨n, hn, he⟩ := List.mem_map.mp h
    rw [List.mem_range] at hn
    simp only [Int.ofNat_eq_natCast] at he
    omega
  · intro h
    rw [range64]
    refine List.mem_map.mpr ⟨sq.toNat, ?_, ?_⟩
    · rw [List.mem_range]
      omega
    · simp only [Int.ofNat_eq_natCast]
      omega

theorem knight_dir_ne {d : Int} (hd : d ∈ KNIGHT_DIRS) : d ≠ 0 := by
  rw [KNIGHT_DIRS] at hd
  simp only [List.mem_cons, List.not_mem_nil, or_false] at hd
  rcases hd with rfl | rfl | rfl | rfl | rfl | rfl | rfl | rfl <;> decide

theorem king_dir_ne {d : Int} (hd : d ∈ KING_DIRS) : d ≠ 0 := by
  rw [KING_DIRS] at hd
  simp only [List.mem_cons, List.not_mem_nil, or_false] at hd
  rcases hd with rfl | rfl | rfl | rfl | rfl | rfl | rfl | rfl <;> decide

theorem genFacts_knight (b : Board) (m : Move) (hm : m ∈ gen_knight_moves b) :
    GenFacts b m := by
  rw [gen_knight_moves] at hm
  simp only [List.mem_flatMap] at hm
  obtain ⟨sq, hsq, hm⟩ := hm
  rw [mem_range64] at hsq
  split at hm
  · simp at hm
  · rename_i hpiece
    rw [not_not] at hpiece
    simp only [List.mem_flatMap] at hm
    obtain ⟨d, hd, hm⟩ := hm
    have hdne : d ≠ 0 := knight_dir_ne hd
    split at hm
    · simp at hm
    · split at hm
      · simp at hm
      · rename_i hbound hwrap
        split at hm
        · rename_i hempty
          simp only [List.mem_singleton] at hm
          subst hm
          refine ⟨show sq ≠ sq + d by omega,
            Or.inl (show (0:Int) ≤ sq ∧ sq < 64 by omega),
            show (0:Int) ≤ sq + d ∧ sq + d < 64 by omega, ?_⟩
          exact Or.inl ⟨rfl, hempty.symm, Or.inr (Or.inl ⟨hpiece, rfl⟩)⟩
        · split at hm
          · simp only [List.mem_singleton] at hm
            subst hm
            refine ⟨show sq ≠ sq + d by omega,
              Or.inl (show (0:Int) ≤ sq ∧ sq < 64 by omega),
              show (0:Int) ≤ sq + d ∧ sq + d < 64 by omega, ?_⟩
            exact Or.inl ⟨rfl, rfl, Or.inr (Or.inl ⟨hpiece, rfl⟩)⟩
          · simp at hm

theorem bishop_dir_ne {d : Int} (hd : d ∈ BISHOP_DIRS) : d ≠ 0 := by
  rw [BISHOP_DIRS] at hd
  simp only [List.mem_cons, List.not_mem_nil, or_false] at hd
  rcases hd with rfl | rfl | rfl | rfl <;> decide

theorem rook_dir_ne {d : Int} (hd : d ∈ ROOK_DIRS) : d ≠ 0 := by
  rw [ROOK_DIRS] at hd
  simp only [List.mem_cons, List.not_mem_nil, or_false] at hd
  rcases hd with rfl | rfl | rfl | rfl <;> decide

theorem sliderRay_facts (b : Board) (sq d : Int) :
    ∀ (fuel : Nat) (t : Int), (∀ j : Nat, t + j * d ≠ sq) →
      ∀ m ∈ sliderRay b sq d fuel t,
        m.fromSq = sq ∧ (0 ≤ m.toSq ∧ m.toSq < 64) ∧ m.toSq ≠ sq ∧
        m.captured = b.board m.toSq ∧ m.promotion = 0 ∧ m.flags = 0 := by
  intro fuel
  induction fuel with
  | zero =>
    intro t ht m hm
    simp [sliderRay] at hm
  | succ fuel ih =>
    intro t ht m hm
    rw [sliderRay] at hm
    split at hm
    · simp at hm
    · split at hm
      · simp at hm
      · rename_i hbound hwrap
        have htne : t ≠ sq := by
          have := ht 0
          simpa using this
        dsimp only at hm
        split at hm
        · rename_i hempty
          rw [List.mem_cons] at hm
          rcases hm with rfl | hm
          · exact ⟨rfl, show (0:Int) ≤ t ∧ t < 64 by omega, htne, hempty.symm,
              rfl, rfl⟩
          · refine ih (t + d) (fun j => ?_) m hm
            have h := ht (j + 1)
            have He : t + (((j + 1) : Nat) : Int) * d = t + d + (j : Int) * d := by
              push_cast
              ring
            rw [He] at h
            exact h
        · split at hm
          · rw [List.mem_singleton] at hm
            subst hm
            exact ⟨rfl, show (0:Int) ≤ t ∧ t < 64 by omega, htne, rfl, rfl, rfl⟩
          · simp at hm

theorem genFacts_slider (b : Board) (pt : Int) (hpt : pt = 3 ∨ pt = 4 ∨ pt = 5)
    (m : Move) (hm : m ∈ gen_slider_moves b pt) : GenFacts b m := by
  rw [gen_slider_moves] at hm
  simp only [List.mem_flatMap] at hm
  obtain ⟨sq, hsq, hm⟩ := hm
  rw [mem_range64] at hsq
  split at hm
  · simp at hm
  · rename_i hpiece
    rw [not_not] at hpiece
    simp only [List.mem_flatMap] at hm
    obtain ⟨d, hd, hm⟩ := hm
    have hdne : d ≠ 0 := by
      rcases hpt with rfl | rfl | rfl
      · exact bishop_dir_ne (by simpa using hd)
      · exact rook_dir_ne (by simpa using hd)
      · exact king_dir_ne (by simpa using hd)
    have hfacts := sliderRay_facts b sq d 64 (sq + d)
      (fun j he => by
        apply hdne
        have hz : (1 + (j : Int)) * d = 0 := by linarith [he]
        rcases mul_eq_zero.mp hz with h | h
        · exact absurd h (by positivity)
        · exact h) m hm
    obtain ⟨hfrom, hto, htne, hcap, hpromo, hflags⟩ := hfacts
    refine ⟨by rw [hfrom]; exact htne.symm, Or.inl (by rw [hfrom]; omega), hto, ?_⟩
    refine Or.inl ⟨hflags, hcap, Or.inr (Or.inr (Or.inl ⟨?_, hpromo⟩))⟩
    rw [hfrom]
    rcases hpt with rfl | rfl | rfl
    · exact Or.inl hpiece
    · exact Or.inr (Or.inl hpiece)
    · exact Or.inr (Or.inr hpiece)

theorem genFacts_king (b : Board) (m : Move) (hm : m ∈ gen_king_moves b) :
    GenFacts b m := by
  rw [gen_king_moves] at hm
  rw [List.mem_append] at hm
  rcases hm with hm | hm
  · -- King steps
    simp only [List.mem_flatMap] at hm
    obtain ⟨d, hd, hm⟩ := hm
    have hdne : d ≠ 0 := king_dir_ne hd
    split at hm
    · simp at hm
    · split at hm
      · simp at hm
      · rename_i hbound hwrap
        split at hm
        · rename_i hempty
          rw [List.mem_singleton] at hm
          subst hm
          refine ⟨show b.king_sq b.side ≠ b.king_sq b.side + d by omega, Or.inr rfl,
            show (0:Int) ≤ b.king_sq b.side + d ∧ b.king_sq b.side + d < 64 by omega, ?_⟩
          exact Or.inl ⟨rfl, hempty.symm, Or.inr (Or.inr (Or.inr ⟨rfl, rfl⟩))⟩
        · split at hm
          · rw [List.mem_singleton] at hm
            subst hm
            refine ⟨show b.king_sq b.side ≠ b.king_sq b.side + d by omega, Or.inr rfl,
              show (0:Int) ≤ b.king_sq b.side + d ∧ b.king_sq b.side + d < 64 by omega, ?_⟩
            exact Or.inl ⟨rfl, rfl, Or.inr (Or.inr (Or.inr ⟨rfl, rfl⟩))⟩
          · simp at hm
  · -- Castles
    split at hm
    · simp at hm
    · rename_i hguard
      rw [Bool.not_eq_true] at hguard
      split at hm
      · rename_i hwhite
        rw [List.mem_append] at hm
        rcases hm with hm | hm
        · split at hm
          · rename_i hc
            rw [List.mem_singleton] at hm
            subst hm
            refine ⟨by decide, Or.inl (by decide), by decide, ?_⟩
            refine Or.inr (Or.inr (Or.inr ⟨rfl, rfl, rfl, hguard, ?_⟩))
            exact Or.inl ⟨hwhite, rfl, Or.inl ⟨rfl, hc.1, hc.2.1, hc.2.2.1,
              hc.2.2.2.1, hc.2.2.2.2⟩⟩
          · simp at hm
        · split at hm
          · rename_i hc
            rw [List.mem_singleton] at hm
            subst hm
            refine ⟨by decide, Or.inl (by decide), by decide, ?_⟩
            refine Or.inr (Or.inr (Or.inr ⟨rfl, rfl, rfl, hguard, ?_⟩))
            exact Or.inl ⟨hwhite, rfl, Or.inr ⟨rfl, hc.1, hc.2.1, hc.2.2.1,
              hc.2.2.2.1, hc.2.2.2.2.1, hc.2.2.2.2.2⟩⟩
          · simp at hm
      · rename_i hb1
        rw [List.mem_append] at hm
        rcases hm with hm | hm
        · split at hm
          · rename_i hc
            rw [List.mem_singleton] at hm
            subst hm
            refine ⟨by decide, Or.inl (by decide), by decide, ?_⟩
            refine Or.inr (Or.inr (Or.inr ⟨rfl, rfl, rfl, hguard, ?_⟩))
            exact Or.inr ⟨hb1, rfl, Or.inl ⟨rfl, hc.1, hc.2.1, hc.2.2.1,
              hc.2.2.2.1, hc.2.2.2.2⟩⟩
          · simp at hm
        · split at hm
          · rename_i hc
            rw [List.mem_singleton] at hm
            subst hm
            refine ⟨by decide, Or.inl (by decide), by decide, ?_⟩
            refine Or.inr (Or.inr (Or.inr ⟨rfl, rfl, rfl, hguard, ?_⟩))
            exact Or.inr ⟨hb1, rfl, Or.inr ⟨rfl, hc.1, hc.2.1, hc.2.2.1,
              hc.2.2.2.1, hc.2.2.2.2.1, hc.2.2.2.2.2⟩⟩
          · simp at hm

theorem pawnCaptureAt_facts (b : Board) (sq cd cf promo_rank : Int)
    (hsq : 0 ≤ sq ∧ sq < 64)
    (hpawn : b.board sq = piece_sign b.side * 1)
    (hcd : cd = (if b.side = 0 then (8:Int) else -8) - 1 ∨
           cd = (if b.side = 0 then (8:Int) else -8) + 1)
    (hcf : cf = sq_file sq + (cd - (if b.side = 0 then (8:Int) else -8))) :
    ∀ m ∈ pawnCaptureAt b (piece_sign b.side) promo_rank sq cd cf,
      GenFacts b m := by
  intro m hm
  rw [pawnCaptureAt] at hm
  split at hm
  · simp at hm
  · rename_i hcfg
    dsimp only at hm
    split at hm
    · simp at hm
    · rename_i htob
      have hcdval : (b.side = 0 ∧ (cd = 7 ∨ cd = 9)) ∨
          (¬b.side = 0 ∧ (cd = -9 ∨ cd = -7)) := by
        by_cases hside : b.side = 0 <;>
          [left; right] <;>
          refine ⟨hside, ?_⟩ <;>
          rcases hcd with rfl | rfl <;> simp [hside] <;> norm_num
      have hcdne : cd ≠ 0 := by
        rcases hcdval with ⟨-, h | h⟩ | ⟨-, h | h⟩ <;> rw [h] <;> decide
      rw [List.mem_append] at hm
      rcases hm with hm | hm
      · -- ordinary capture (possibly promoting)
        split at hm
        · rename_i hhost
          split at hm
          · simp only [List.mem_cons, List.not_mem_nil, or_false] at hm
            rcases hm with rfl | rfl | rfl | rfl <;>
              exact ⟨show sq ≠ sq + cd by omega, Or.inl hsq,
                show (0:Int) ≤ sq + cd ∧ sq + cd < 64 by omega,
                Or.inl ⟨rfl, rfl, Or.inl ⟨hpawn, by simp⟩⟩⟩
          · rw [List.mem_singleton] at hm
            subst hm
            exact ⟨show sq ≠ sq + cd by omega, Or.inl hsq,
              show (0:Int) ≤ sq + cd ∧ sq + cd < 64 by omega,
              Or.inl ⟨rfl, rfl, Or.inl ⟨hpawn, Or.inl rfl⟩⟩⟩
        · simp at hm
      · -- en passant
        split at hm
        · rename_i hep
          rw [List.mem_singleton] at hm
          subst hm
          refine ⟨show sq ≠ sq + cd by omega, Or.inl hsq,
            show (0:Int) ≤ sq + cd ∧ sq + cd < 64 by omega,
            Or.inr (Or.inr (Or.inl ⟨rfl, hep, rfl, hpawn, rfl, ?_, ?_, ?_⟩))⟩
          · show make_sq (sq_file (sq + cd)) (sq_rank sq) = sq + cd - piece_sign b.side * 8
            rcases hcdval with ⟨hside, h | h⟩ | ⟨hside, h | h⟩ <;>
              subst h <;>
              rw [hcf] at hcfg <;>
              simp only [piece_sign, hside, if_pos, if_neg, if_true, if_false,
                make_sq, sq_file, sq_rank] at * <;>
              omega
          · show sq_file (sq + cd) ≠ sq_file sq
            rcases hcdval with ⟨hside, h | h⟩ | ⟨hside, h | h⟩ <;>
              subst h <;>
              rw [hcf] at hcfg <;>
              simp only [piece_sign, hside, if_pos, if_neg, if_true, if_false,
                make_sq, sq_file, sq_rank] at * <;>
              omega
          · show sq_rank (sq + cd) ≠ sq_rank sq
            rcases hcdval with ⟨hside, h | h⟩ | ⟨hside, h | h⟩ <;>
              subst h <;>
              rw [hcf] at hcfg <;>
              simp only [piece_sign, hside, if_pos, if_neg, if_true, if_false,
                make_sq, sq_file, sq_rank] at * <;>
              omega
        · simp at hm

theorem genFacts_pawn (b : Board) (m : Move) (hm : m ∈ gen_pawn_moves b) :
    GenFacts b m := by
  rw [gen_pawn_moves] at hm
  simp only [List.mem_flatMap] at hm
  obtain ⟨sq, hsq, hm⟩ := hm
  rw [mem_range64] at hsq
  split at hm
  · simp at hm
  · rename_i hpawn
    rw [not_not] at hpawn
    rw [List.mem_append, List.mem_append] at hm
    rcases hm with (hm | hm) | hm
    · -- forward pushes; the first split resolves the side-dependent constants
      split at hm
      · rename_i hside
        split at hm
        · rename_i hfwd
          split at hm
          · simp only [List.mem_cons, List.not_mem_nil, or_false] at hm
            rcases hm with rfl | rfl | rfl | rfl <;>
              exact ⟨by dsimp only; omega, Or.inl hsq,
                by dsimp only; exact ⟨hfwd.1, hfwd.2.1⟩,
                Or.inl ⟨rfl, hfwd.2.2.symm, Or.inl ⟨hpawn, by simp⟩⟩⟩
          · rw [List.mem_cons] at hm
            rcases hm with rfl | hm
            · exact ⟨by dsimp only; omega, Or.inl hsq,
                by dsimp only; exact ⟨hfwd.1, hfwd.2.1⟩,
                Or.inl ⟨rfl, hfwd.2.2.symm, Or.inl ⟨hpawn, Or.inl rfl⟩⟩⟩
            · split at hm
              · rename_i hdbl
                rw [List.mem_singleton] at hm
                subst hm
                have h1 := hdbl.1
                rw [sq_rank] at h1
                refine ⟨by dsimp only; omega, Or.inl hsq, by dsimp only; omega,
                  Or.inr (Or.inl ⟨rfl, hpawn, rfl, hdbl.2, rfl⟩)⟩
              · simp at hm
        · simp at hm
      · rename_i hside2
        split at hm
        · rename_i hfwdB
          split at hm
          · simp only [List.mem_cons, List.not_mem_nil, or_false] at hm
            rcases hm with rfl | rfl | rfl | rfl <;>
              exact ⟨by dsimp only; omega, Or.inl hsq,
                by dsimp only; exact ⟨hfwdB.1, hfwdB.2.1⟩,
                Or.inl ⟨rfl, hfwdB.2.2.symm, Or.inl ⟨hpawn, by simp⟩⟩⟩
          · rw [List.mem_cons] at hm
            rcases hm with rfl | hm
            · exact ⟨by dsimp only; omega, Or.inl hsq,
                by dsimp only; exact ⟨hfwdB.1, hfwdB.2.1⟩,
                Or.inl ⟨rfl, hfwdB.2.2.symm, Or.inl ⟨hpawn, Or.inl rfl⟩⟩⟩
            · split at hm
              · rename_i hdblB
                rw [List.mem_singleton] at hm
                subst hm
                have h1B := hdblB.1
                rw [sq_rank] at h1B
                refine ⟨by dsimp only; omega, Or.inl hsq, by dsimp only; omega,
                  Or.inr (Or.inl ⟨rfl, hpawn, rfl, hdblB.2, rfl⟩)⟩
              · simp at hm
        · simp at hm
    · -- captures towards file - 1
      exact pawnCaptureAt_facts b sq _ _ _ hsq hpawn (Or.inl rfl) (by ring) m hm
    · -- captures towards file + 1
      exact pawnCaptureAt_facts b sq _ _ _ hsq hpawn (Or.inr rfl) (by ring) m hm

/-- Every pseudo-legal move carries the facts its emission site checked. -/
theorem genFacts_of_mem_pseudo (b : Board) (m : Move)
    (hm : m ∈ gen_pseudo_moves b) : GenFacts b m := by
  rw [gen_pseudo_moves] at hm
  simp only [List.mem_append] at hm
  rcases hm with ((((hm | hm) | hm) | hm) | hm) | hm
  · exact genFacts_pawn b m hm
  · exact genFacts_knight b m hm
  · exact genFacts_slider b 3 (Or.inl rfl) m hm
  · exact genFacts_slider b 4 (Or.inr (Or.inl rfl)) m hm
  · exact genFacts_slider b 5 (Or.inr (Or.inr rfl)) m hm
  · exact genFacts_king b m hm

theorem mem_pseudo_of_mem_legal (b : Board) (m : Move)
    (hm : m ∈ gen_legal_moves b) : m ∈ gen_pseudo_moves b := by
  rw [gen_legal_moves] at hm
  exact (List.mem_filter.mp hm).1

theorem genFacts_of_mem_legal (b : Board) (m : Move)
    (hm : m ∈ gen_legal_moves b) : GenFacts b m :=
  genFacts_of_mem_pseudo b m (mem_pseudo_of_mem_legal b m hm)

/-! ## Make / unmake inversion lemmas (C2 infrastructure) -/

theorem xor_one_cancel (n : Nat) : n ^^^ 1 ^^^ 1 = n := by
  rw [Nat.xor_assoc, Nat.xor_self, Nat.xor_zero]

theorem make_move_snd (b : Board) (m : Move) :
    (b.make_move m).2 = ⟨b.castling, b.ep_square, b.halfmove, b.hash⟩ := rfl

theorem roundtrip_of_fields (b : Board) (m : Move)
    (hhist : b.pos_history.length < MAX_HISTORY)
    (hboard : ((b.make_move m).1.unmake_move m (b.make_move m).2).board = b.board)
    (hking : ((b.make_move m).1.unmake_move m (b.make_move m).2).king_sq = b.king_sq) :
    (b.make_move m).1.unmake_move m (b.make_move m).2 = b := by
  have hside : ((b.make_move m).1.unmake_move m (b.make_move m).2).side =
      b.side ^^^ 1 ^^^ 1 := rfl
  have hfm : ((b.make_move m).1.unmake_move m (b.make_move m).2).fullmove =
      if b.side ^^^ 1 ^^^ 1 = 1 then
        (if b.side ^^^ 1 = 0 then b.fullmove + 1 else b.fullmove) - 1
      else (if b.side ^^^ 1 = 0 then b.fullmove + 1 else b.fullmove) := rfl
  have hph : ((b.make_move m).1.unmake_move m (b.make_move m).2).pos_history =
      (if b.pos_history.length < MAX_HISTORY then make_hash b m :: b.pos_history
       else b.pos_history).tail := rfl
  apply Board.ext
  · exact hboard
  · rw [hside, xor_one_cancel]
  · rfl
  · rfl
  · rfl
  · rw [hfm, xor_one_cancel]
    by_cases hs : b.side = 1
    · rw [if_pos hs, hs]
      norm_num
    · rw [if_neg hs, if_neg (fun h => hs (Nat.xor_eq_zero.mp h))]
  · rfl
  · exact hking
  · rw [hph, if_pos hhist]
    rfl

theorem unmake_board_fn_std (b : Board) (m : Move)
    (hca0 : m.flags &&& FL_CASTLE = 0) (hep0 : m.flags &&& FL_EP = 0)
    (hne : m.fromSq ≠ m.toSq) (hcap : m.captured = b.board m.toSq)
    (hpr : m.promotion ≠ 0 → b.board m.fromSq = piece_sign b.side * 1) :
    unmake_board_fn (b.make_move m).1 m = b.board := by
  have hcastle : ¬ (m.flags &&& FL_CASTLE ≠ 0) := fun h => h hca0
  have hepf : ¬ (m.flags &&& FL_EP ≠ 0) := fun h => h hep0
  have hepc : ¬ (m.captured ≠ 0 ∧ m.flags &&& FL_EP ≠ 0) := fun h => hepf h.2
  have hb1 : (b.make_move m).1.board = make_board_fn b m := rfl
  have hs1 : (b.make_move m).1.side = b.side ^^^ 1 := rfl
  have hmb : make_board_fn b m = Function.update
      (Function.update b.board m.fromSq 0) m.toSq
      (if m.promotion ≠ 0 then m.promotion else b.board m.fromSq) := by
    simp only [make_board_fn]
    rw [if_neg hepc, if_neg hcastle]
  funext x
  simp only [unmake_board_fn]
  rw [if_neg hcastle, if_neg hepf, hs1, hb1, hmb, xor_one_cancel,
    Function.update_same]
  have hpiece : (if m.promotion ≠ 0 then piece_sign b.side * 1
      else if m.promotion ≠ 0 then m.promotion else b.board m.fromSq) =
      b.board m.fromSq := by
    by_cases hp : m.promotion ≠ 0
    · rw [if_pos hp]; exact (hpr hp).symm
    · rw [if_neg hp, if_neg hp]
  rw [hpiece]
  by_cases hc : m.captured ≠ 0
  · rw [if_pos hc]
    by_cases hxt : x = m.toSq
    · subst hxt
      rw [Function.update_same]
      exact hcap
    · rw [Function.update_noteq hxt]
      by_cases hxf : x = m.fromSq
      · subst hxf
        rw [Function.update_same]
      · simp only [Function.update_noteq hxf, Function.update_noteq hxt]
  · rw [if_neg hc]
    push_neg at hc
    by_cases hxt : x = m.toSq
    · subst hxt
      rw [Function.update_noteq (Ne.symm hne), Function.update_same, ← hcap, hc]
    · by_cases hxf : x = m.fromSq
      · subst hxf
        rw [Function.update_same]
      · simp only [Function.update_noteq hxf, Function.update_noteq hxt]

theorem piece_type_sign_mul (s : Nat) (k : Int) (hk : 0 ≤ k) :
    piece_type (piece_sign s * k) = k := by
  unfold piece_sign piece_type
  split <;> split <;> omega

theorem unmake_king_nonking (b : Board) (m : Move)
    (hca0 : m.flags &&& FL_CASTLE = 0)
    (hpt : piece_type (b.board m.fromSq) ≠ 6) :
    ((b.make_move m).1.unmake_move m (b.make_move m).2).king_sq = b.king_sq := by
  have hcastle : ¬ (m.flags &&& FL_CASTLE ≠ 0) := fun h => h hca0
  have hk : ((b.make_move m).1.unmake_move m (b.make_move m).2).king_sq =
      if piece_type (if m.promotion ≠ 0 then
          piece_sign ((b.make_move m).1.side ^^^ 1) * 1
        else (b.make_move m).1.board m.toSq) = 6 then
        Function.update (b.make_move m).1.king_sq ((b.make_move m).1.side ^^^ 1)
          m.fromSq
      else (b.make_move m).1.king_sq := rfl
  have hks1 : (b.make_move m).1.king_sq = make_king_sq b m := rfl
  have hmk : make_king_sq b m = b.king_sq := by
    rw [make_king_sq, if_neg hpt]
  rw [hk, hks1, hmk]
  by_cases hp : m.promotion ≠ 0
  · rw [if_pos hp, if_neg]
    rw [piece_type_sign_mul _ _ (by norm_num)]
    norm_num
  · rw [if_neg hp]
    have hb1 : (b.make_move m).1.board = make_board_fn b m := rfl
    have hbt : make_board_fn b m m.toSq =
        (if m.promotion ≠ 0 then m.promotion else b.board m.fromSq) := by
      simp only [make_board_fn]
      rw [if_neg hcastle]
      · exact Function.update_same _ _ _
    rw [hb1, hbt, if_neg hp, if_neg hpt]

theorem unmake_king_king (b : Board) (m : Move)
    (hca0 : m.flags &&& FL_CASTLE = 0) (hpr0 : m.promotion = 0)
    (hfrom : m.fromSq = b.king_sq b.side)
    (hpc : b.board m.fromSq = piece_sign b.side * 6)
    (hside_le : b.side ≤ 1) :
    ((b.make_move m).1.unmake_move m (b.make_move m).2).king_sq = b.king_sq := by
  have hcastle : ¬ (m.flags &&& FL_CASTLE ≠ 0) := fun h => h hca0
  have hp : ¬ (m.promotion ≠ 0) := fun h => h hpr0
  have hk : ((b.make_move m).1.unmake_move m (b.make_move m).2).king_sq =
      if piece_type (if m.promotion ≠ 0 then
          piece_sign ((b.make_move m).1.side ^^^ 1) * 1
        else (b.make_move m).1.board m.toSq) = 6 then
        Function.update (b.make_move m).1.king_sq ((b.make_move m).1.side ^^^ 1)
          m.fromSq
      else (b.make_move m).1.king_sq := rfl
  have hks1 : (b.make_move m).1.king_sq = make_king_sq b m := rfl
  have hs1 : (b.make_move m).1.side = b.side ^^^ 1 := rfl
  have hb1 : (b.make_move m).1.board = make_board_fn b m := rfl
  have hbt : make_board_fn b m m.toSq =
      (if m.promotion ≠ 0 then m.promotion else b.board m.fromSq) := by
    simp only [make_board_fn]
    rw [if_neg hcastle]
    · exact Function.update_same _ _ _
  have hps : piece_side (b.board m.fromSq) = b.side := by
    rw [hpc]
    unfold piece_side piece_sign
    rcases Nat.le_one_iff_eq_zero_or_eq_one.mp hside_le with h0 | h1
    · rw [h0]; norm_num
    · rw [h1]; norm_num
  have hpt : piece_type (b.board m.fromSq) = 6 := by
    rw [hpc]; exact piece_type_sign_mul _ _ (by norm_num)
  have hmk : make_king_sq b m = Function.update b.king_sq b.side m.toSq := by
    rw [make_king_sq, if_pos hpt, hps]
  rw [hk, hks1, hs1, hb1, hbt, if_neg hp, if_neg hp, hmk, xor_one_cancel,
    if_pos hpt, Function.update_idem, hfrom, Function.update_eq_self]

theorem unmake_board_fn_ep (b : Board) (m : Move) (hcons : Consistent b)
    (hsh : epShape b m) (hto_lb : 0 ≤ m.toSq) (hne : m.fromSq ≠ m.toSq) :
    unmake_board_fn (b.make_move m).1 m = b.board := by
  obtain ⟨hfl, hto, hcap, hfrom_pc, hpr0, hcs, hfile, hrank⟩ := hsh
  have hside01 : b.side = 0 ∨ b.side = 1 :=
    Nat.le_one_iff_eq_zero_or_eq_one.mp hcons.side_le
  have hcastle : ¬ (m.flags &&& FL_CASTLE ≠ 0) := by rw [hfl]; decide
  have hepf : m.flags &&& FL_EP ≠ 0 := by rw [hfl]; decide
  have hpneg : ¬ (m.promotion ≠ 0) := fun h => h hpr0
  have hsign : piece_sign b.side = 1 ∨ piece_sign b.side = -1 := by
    unfold piece_sign
    split
    · exact Or.inl rfl
    · exact Or.inr rfl
  have hcne : m.captured ≠ 0 := by
    rw [hcap]
    rcases hsign with h | h <;> rw [h] <;> norm_num
  have hcsq : ep_capture_sq m = m.toSq - piece_sign b.side * 8 := hcs
  have hct : ep_capture_sq m ≠ m.toSq := by
    rw [hcsq]
    rcases hsign with h | h <;> rw [h] <;> intro hh <;> omega
  have hcf : ep_capture_sq m ≠ m.fromSq := by
    intro hh
    simp only [ep_capture_sq, make_sq, sq_file, sq_rank] at hh hfile
    omega
  have hepsq : 0 ≤ b.ep_square := hto ▸ hto_lb
  have hb_to : b.board m.toSq = 0 := by
    rcases hside01 with h | h
    · rw [hto]; exact (hcons.ep_w h hepsq).1
    · rw [hto]; exact (hcons.ep_b h hepsq).1
  have hb_cap : b.board (ep_capture_sq m) = m.captured := by
    rcases hside01 with h | h
    · have h8 : ep_capture_sq m = b.ep_square - 8 := by
        rw [hcsq, hto, h]; norm_num [piece_sign]
      rw [h8, hcap, h]
      norm_num [piece_sign]
      exact (hcons.ep_w h hepsq).2
    · have h8 : ep_capture_sq m = b.ep_square + 8 := by
        rw [hcsq, hto, h]; norm_num [piece_sign]
      rw [h8, hcap, h]
      norm_num [piece_sign]
      exact (hcons.ep_b h hepsq).2
  have hb1 : (b.make_move m).1.board = make_board_fn b m := rfl
  have hmb : make_board_fn b m = Function.update
      (Function.update (Function.update b.board m.fromSq 0) (ep_capture_sq m) 0)
      m.toSq (b.board m.fromSq) := by
    have hepcpos : m.captured ≠ 0 ∧ m.flags &&& FL_EP ≠ 0 := ⟨hcne, hepf⟩
    simp only [make_board_fn]
    rw [if_neg hcastle, if_pos hepcpos, if_neg hpneg]
  funext x
  simp only [unmake_board_fn]
  rw [if_neg hcastle, if_pos hepf, if_pos hcne, if_neg hpneg, hb1, hmb,
    Function.update_same]
  by_cases hxc : x = ep_capture_sq m
  · subst hxc
    rw [Function.update_same]
    exact hb_cap.symm
  · rw [Function.update_noteq hxc]
    by_cases hxf : x = m.fromSq
    · subst hxf
      rw [Function.update_same]
    · rw [Function.update_noteq hxf]
      by_cases hxt : x = m.toSq
      · subst hxt
        rw [Function.update_same]
        exact hb_to.symm
      · rw [Function.update_noteq hxt]
        simp only [Function.update_noteq hxt, Function.update_noteq hxc,
          Function.update_noteq hxf]

theorem roundtrip_castle (b : Board) (m : Move) (hcons : Consistent b)
    (hsh : castleShape b m) (hhist : b.pos_history.length < MAX_HISTORY) :
    (b.make_move m).1.unmake_move m (b.make_move m).2 = b := by
  obtain ⟨hfl, hc0, hp0, _hatk, hcases⟩ := hsh
  have hcastle : m.flags &&& FL_CASTLE ≠ 0 := by rw [hfl]; decide
  have hepc : ¬ (m.captured ≠ 0 ∧ m.flags &&& FL_EP ≠ 0) := fun h => h.1 hc0
  have hpneg : ¬ (m.promotion ≠ 0) := fun h => h hp0
  have hcneg : ¬ (m.captured ≠ 0) := fun h => h hc0
  have hb1 : (b.make_move m).1.board = make_board_fn b m := rfl
  have hs1 : (b.make_move m).1.side = b.side ^^^ 1 := rfl
  have hks1 : (b.make_move m).1.king_sq = make_king_sq b m := rfl
  rcases hcases with ⟨hside, hfrom, hkq⟩ | ⟨hsidene, hfrom, hkq⟩
  · rcases hkq with ⟨hto, hbit, hsA, hsB, _ha1, _ha2⟩ |
      ⟨hto, hbit, hsA, hsB, _hsC, _ha1, _ha2⟩
    · -- white king-side: e1g1 with Rh1-f1
      have hcorner := hcons.castle_wk hside hbit
      have hbRF : b.board 7 = 4 := hcorner.1
      have hkh : b.king_sq 0 = 4 := hcorner.2
      have hbF : b.board 4 = 6 := by
        have hh := hcons.king_pc
        rw [hside, hkh] at hh
        norm_num [piece_sign] at hh
        exact hh
      have hmb : make_board_fn b m = Function.update (Function.update
          (Function.update (Function.update b.board 4 0) 6 6) 7 0)
          5 4 := by
        simp only [make_board_fn]
        rw [if_neg hepc, if_neg hpneg, if_pos hcastle, hfrom, hto, hbF]
        norm_num [piece_side, piece_sign, sq_file, sq_rank, make_sq]
      have hpieceT : make_board_fn b m m.toSq = (6 : Int) := by
        rw [hmb, hto, Function.update_noteq (show (6 : Int) ≠ 5 by norm_num),
          Function.update_noteq (show (6 : Int) ≠ 7 by norm_num),
          Function.update_same]
      have hboard : ((b.make_move m).1.unmake_move m (b.make_move m).2).board =
          b.board := by
        show unmake_board_fn (b.make_move m).1 m = b.board
        funext x
        simp only [unmake_board_fn]
        rw [if_pos hcastle, if_neg hcneg, if_neg hpneg, hs1, xor_one_cancel, hside,
          hb1, hpieceT, hmb, hto, hfrom]
        norm_num [piece_sign, sq_file, sq_rank, make_sq]
        by_cases hx1 : x = (5 : Int)
        · subst hx1
          simp only [Function.update_apply]
          norm_num [hsA]
        · by_cases hx2 : x = (7 : Int)
          · subst hx2
            simp only [Function.update_apply]
            norm_num [hbRF]
          · by_cases hx3 : x = (4 : Int)
            · subst hx3
              simp only [Function.update_apply]
              norm_num [hbF]
            · by_cases hx4 : x = (6 : Int)
              · subst hx4
                simp only [Function.update_apply]
                norm_num [hsB]
              · simp only [Function.update_noteq hx1, Function.update_noteq hx2,
                  Function.update_noteq hx3, Function.update_noteq hx4]
      have hking : ((b.make_move m).1.unmake_move m (b.make_move m).2).king_sq =
          b.king_sq := by
        have hk : ((b.make_move m).1.unmake_move m (b.make_move m).2).king_sq =
            if piece_type (if m.promotion ≠ 0 then
                piece_sign ((b.make_move m).1.side ^^^ 1) * 1
              else (b.make_move m).1.board m.toSq) = 6 then
              Function.update (b.make_move m).1.king_sq
                ((b.make_move m).1.side ^^^ 1) m.fromSq
            else (b.make_move m).1.king_sq := rfl
        have hmk : make_king_sq b m = Function.update b.king_sq 0 m.toSq := by
          simp only [make_king_sq]
          rw [hfrom, hbF]
          norm_num [piece_type, piece_side]
        rw [hk, if_neg hpneg, hb1, hpieceT, hks1, hmk, hs1, xor_one_cancel, hside,
          hfrom, hto]
        norm_num [piece_type]
        exact hkh.symm
      exact roundtrip_of_fields b m hhist hboard hking
    · -- white queen-side: e1c1 with Ra1-d1
      have hcorner := hcons.castle_wq hside hbit
      have hbRF : b.board 0 = 4 := hcorner.1
      have hkh : b.king_sq 0 = 4 := hcorner.2
      have hbF : b.board 4 = 6 := by
        have hh := hcons.king_pc
        rw [hside, hkh] at hh
        norm_num [piece_sign] at hh
        exact hh
      have hmb : make_board_fn b m = Function.update (Function.update
          (Function.update (Function.update b.board 4 0) 2 6) 0 0)
          3 4 := by
        simp only [make_board_fn]
        rw [if_neg hepc, if_neg hpneg, if_pos hcastle, hfrom, hto, hbF]
        norm_num [piece_side, piece_sign, sq_file, sq_rank, make_sq]
      have hpieceT : make_board_fn b m m.toSq = (6 : Int) := by
        rw [hmb, hto, Function.update_noteq (show (2 : Int) ≠ 3 by norm_num),
          Function.update_noteq (show (2 : Int) ≠ 0 by norm_num),
          Function.update_same]
      have hboard : ((b.make_move m).1.unmake_move m (b.make_move m).2).board =
          b.board := by
        show unmake_board_fn (b.make_move m).1 m = b.board
        funext x
        simp only [unmake_board_fn]
        rw [if_pos hcastle, if_neg hcneg, if_neg hpneg, hs1, xor_one_cancel, hside,
          hb1, hpieceT, hmb, hto, hfrom]
        norm_num [piece_sign, sq_file, sq_rank, make_sq]
        by_cases hx1 : x = (3 : Int)
        · subst hx1
          simp only [Function.update_apply]
          norm_num [hsA]
        · by_cases hx2 : x = (0 : Int)
          · subst hx2
            simp only [Function.update_apply]
            norm_num [hbRF]
          · by_cases hx3 : x = (4 : Int)
            · subst hx3
              simp only [Function.update_apply]
              norm_num [hbF]
            · by_cases hx4 : x = (2 : Int)
              · subst hx4
                simp only [Function.update_apply]
                norm_num [hsB]
              · simp only [Function.update_noteq hx1, Function.update_noteq hx2,
                  Function.update_noteq hx3, Function.update_noteq hx4]
      have hking : ((b.make_move m).1.unmake_move m (b.make_move m).2).king_sq =
          b.king_sq := by
        have hk : ((b.make_move m).1.unmake_move m (b.make_move m).2).king_sq =
            if piece_type (if m.promotion ≠ 0 then
                piece_sign ((b.make_move m).1.side ^^^ 1) * 1
              else (b.make_move m).1.board m.toSq) = 6 then
              Function.update (b.make_move m).1.king_sq
                ((b.make_move m).1.side ^^^ 1) m.fromSq
            else (b.make_move m).1.king_sq := rfl
        have hmk : make_king_sq b m = Function.update b.king_sq 0 m.toSq := by
          simp only [make_king_sq]
          rw [hfrom, hbF]
          norm_num [piece_type, piece_side]
        rw [hk, if_neg hpneg, hb1, hpieceT, hks1, hmk, hs1, xor_one_cancel, hside,
          hfrom, hto]
        norm_num [piece_type]
        exact hkh.symm
      exact roundtrip_of_fields b m hhist hboard hking
  · have hside : b.side = 1 :=
      Nat.le_antisymm hcons.side_le (Nat.one_le_iff_ne_zero.mpr hsidene)
    rcases hkq with ⟨hto, hbit, hsA, hsB, _ha1, _ha2⟩ |
      ⟨hto, hbit, hsA, hsB, _hsC, _ha1, _ha2⟩
    · -- black king-side: e8g8 with Rh8-f8
      have hcorner := hcons.castle_bk hside hbit
      have hbRF : b.board 63 = (-4) := hcorner.1
      have hkh : b.king_sq 1 = 60 := hcorner.2
      have hbF : b.board 60 = (-6) := by
        have hh := hcons.king_pc
        rw [hside, hkh] at hh
        norm_num [piece_sign] at hh
        exact hh
      have hmb : make_board_fn b m = Function.update (Function.update
          (Function.update (Function.update b.board 60 0) 62 (-6)) 63 0)
          61 (-4) := by
        simp only [make_board_fn]
        rw [if_neg hepc, if_neg hpneg, if_pos hcastle, hfrom, hto, hbF]
        norm_num [piece_side, piece_sign, sq_file, sq_rank, make_sq]
      have hpieceT : make_board_fn b m m.toSq = ((-6) : Int) := by
        rw [hmb, hto, Function.update_noteq (show (62 : Int) ≠ 61 by norm_num),
          Function.update_noteq (show (62 : Int) ≠ 63 by norm_num),
          Function.update_same]
      have hboard : ((b.make_move m).1.unmake_move m (b.make_move m).2).board =
          b.board := by
        show unmake_board_fn (b.make_move m).1 m = b.board
        funext x
        simp only [unmake_board_fn]
        rw [if_pos hcastle, if_neg hcneg, if_neg hpneg, hs1, xor_one_cancel, hside,
          hb1, hpieceT, hmb, hto, hfrom]
        norm_num [piece_sign, sq_file, sq_rank, make_sq]
        by_cases hx1 : x = (61 : Int)
        · subst hx1
          simp only [Function.update_apply]
          norm_num [hsA]
        · by_cases hx2 : x = (63 : Int)
          · subst hx2
            simp only [Function.update_apply]
            norm_num [hbRF]
          · by_cases hx3 : x = (60 : Int)
            · subst hx3
              simp only [Function.update_apply]
              norm_num [hbF]
            · by_cases hx4 : x = (62 : Int)
              · subst hx4
                simp only [Function.update_apply]
                norm_num [hsB]
              · simp only [Function.update_noteq hx1, Function.update_noteq hx2,
                  Function.update_noteq hx3, Function.update_noteq hx4]
      have hking : ((b.make_move m).1.unmake_move m (b.make_move m).2).king_sq =
          b.king_sq := by
        have hk : ((b.make_move m).1.unmake_move m (b.make_move m).2).king_sq =
            if piece_type (if m.promotion ≠ 0 then
                piece_sign ((b.make_move m).1.side ^^^ 1) * 1
              else (b.make_move m).1.board m.toSq) = 6 then
              Function.update (b.make_move m).1.king_sq
                ((b.make_move m).1.side ^^^ 1) m.fromSq
            else (b.make_move m).1.king_sq := rfl
        have hmk : make_king_sq b m = Function.update b.king_sq 1 m.toSq := by
          simp only [make_king_sq]
          rw [hfrom, hbF]
          norm_num [piece_type, piece_side]
        rw [hk, if_neg hpneg, hb1, hpieceT, hks1, hmk, hs1, xor_one_cancel, hside,
          hfrom, hto]
        norm_num [piece_type]
        exact hkh.symm
      exact roundtrip_of_fields b m hhist hboard hking
    · -- black queen-side: e8c8 with Ra8-d8
      have hcorner := hcons.castle_bq hside hbit
      have hbRF : b.board 56 = (-4) := hcorner.1
      have hkh : b.king_sq 1 = 60 := hcorner.2
      have hbF : b.board 60 = (-6) := by
        have hh := hcons.king_pc
        rw [hside, hkh] at hh
        norm_num [piece_sign] at hh
        exact hh
      have hmb : make_board_fn b m = Function.update (Function.update
          (Function.update (Function.update b.board 60 0) 58 (-6)) 56 0)
          59 (-4) := by
        simp only [make_board_fn]
        rw [if_neg hepc, if_neg hpneg, if_pos hcastle, hfrom, hto, hbF]
        norm_num [piece_side, piece_sign, sq_file, sq_rank, make_sq]
      have hpieceT : make_board_fn b m m.toSq = ((-6) : Int) := by
        rw [hmb, hto, Function.update_noteq (show (58 : Int) ≠ 59 by norm_num),
          Function.update_noteq (show (58 : Int) ≠ 56 by norm_num),
          Function.update_same]
      have hboard : ((b.make_move m).1.unmake_move m (b.make_move m).2).board =
          b.board := by
        show unmake_board_fn (b.make_move m).1 m = b.board
        funext x
        simp only [unmake_board_fn]
        rw [if_pos hcastle, if_neg hcneg, if_neg hpneg, hs1, xor_one_cancel, hside,
          hb1, hpieceT, hmb, hto, hfrom]
        norm_num [piece_sign, sq_file, sq_rank, make_sq]
        by_cases hx1 : x = (59 : Int)
        · subst hx1
          simp only [Function.update_apply]
          norm_num [hsA]
        · by_cases hx2 : x = (56 : Int)
          · subst hx2
            simp only [Function.update_apply]
            norm_num [hbRF]
          · by_cases hx3 : x = (60 : Int)
            · subst hx3
              simp only [Function.update_apply]
              norm_num [hbF]
            · by_cases hx4 : x = (58 : Int)
              · subst hx4
                simp only [Function.update_apply]
                norm_num [hsB]
              · simp only [Function.update_noteq hx1, Function.update_noteq hx2,
                  Function.update_noteq hx3, Function.update_noteq hx4]
      have hking : ((b.make_move m).1.unmake_move m (b.make_move m).2).king_sq =
          b.king_sq := by
        have hk : ((b.make_move m).1.unmake_move m (b.make_move m).2).king_sq =
            if piece_type (if m.promotion ≠ 0 then
                piece_sign ((b.make_move m).1.side ^^^ 1) * 1
              else (b.make_move m).1.board m.toSq) = 6 then
              Function.update (b.make_move m).1.king_sq
                ((b.make_move m).1.side ^^^ 1) m.fromSq
            else (b.make_move m).1.king_sq := rfl
        have hmk : make_king_sq b m = Function.update b.king_sq 1 m.toSq := by
          simp only [make_king_sq]
          rw [hfrom, hbF]
          norm_num [piece_type, piece_side]
        rw [hk, if_neg hpneg, hb1, hpieceT, hks1, hmk, hs1, xor_one_cancel, hside,
          hfrom, hto]
        norm_num [piece_type]
        exact hkh.symm
      exact roundtrip_of_fields b m hhist hboard hking

/-! ## C2: make/unmake roundtrip -/

/-- C2 (amended): for a consistent position, a legal move, and a position
history that is not already full, `unmake_move` after `make_move` restores
every board field. -/
theorem make_unmake_roundtrip (b : Board) (m : Move) (hcons : Consistent b)
    (hm : m ∈ gen_legal_moves b) (hhist : b.pos_history.length < MAX_HISTORY) :
    (b.make_move m).1.unmake_move m (b.make_move m).2 = b := by
  have gf := genFacts_of_mem_legal b m hm
  rcases gf.shape with hq | hd | he | hc
  · obtain ⟨hfl, hcap, halts⟩ := hq
    have hca0 : m.flags &&& FL_CASTLE = 0 := by rw [hfl]; decide
    have hep0 : m.flags &&& FL_EP = 0 := by rw [hfl]; decide
    have hpr : m.promotion ≠ 0 → b.board m.fromSq = piece_sign b.side * 1 := by
      intro hp
      rcases halts with ⟨hpc, _⟩ | ⟨_, h0⟩ | ⟨_, h0⟩ | ⟨_, h0⟩
      · exact hpc
      · exact absurd h0 hp
      · exact absurd h0 hp
      · exact absurd h0 hp
    refine roundtrip_of_fields b m hhist
      (unmake_board_fn_std b m hca0 hep0 gf.ne hcap hpr) ?_
    rcases halts with ⟨hpc, _⟩ | ⟨hpc, _⟩ | ⟨hpc, _⟩ | ⟨hfromk, hp0⟩
    · apply unmake_king_nonking b m hca0
      rw [hpc, piece_type_sign_mul _ _ (by norm_num)]
      norm_num
    · apply unmake_king_nonking b m hca0
      rw [hpc, piece_type_sign_mul _ _ (by norm_num)]
      norm_num
    · apply unmake_king_nonking b m hca0
      rcases hpc with h | h | h <;>
        rw [h, piece_type_sign_mul _ _ (by norm_num)] <;> norm_num
    · exact unmake_king_king b m hca0 hp0 hfromk
        (by rw [hfromk]; exact hcons.king_pc) hcons.side_le
  · obtain ⟨hfl, hpc, hc0, ht0, hp0⟩ := hd
    have hca0 : m.flags &&& FL_CASTLE = 0 := by rw [hfl]; decide
    have hep0 : m.flags &&& FL_EP = 0 := by rw [hfl]; decide
    have hcap : m.captured = b.board m.toSq := by rw [hc0, ht0]
    refine roundtrip_of_fields b m hhist
      (unmake_board_fn_std b m hca0 hep0 gf.ne hcap fun _ => hpc) ?_
    apply unmake_king_nonking b m hca0
    rw [hpc, piece_type_sign_mul _ _ (by norm_num)]
    norm_num
  · have hca0 : m.flags &&& FL_CASTLE = 0 := by rw [he.1]; decide
    refine roundtrip_of_fields b m hhist
      (unmake_board_fn_ep b m hcons he gf.to_range.1 gf.ne) ?_
    apply unmake_king_nonking b m hca0
    rw [he.2.2.2.1, piece_type_sign_mul _ _ (by norm_num)]
    norm_num
  · exact roundtrip_castle b m hcons hc hhist

/-- C2 witness: the bare-kings position with a one-entry history and the
legal king move a1-b1. -/
theorem make_unmake_roundtrip_witness :
    Consistent c2wBoard ∧ c2Move ∈ gen_legal_moves c2wBoard ∧
      c2wBoard.pos_history.length < MAX_HISTORY ∧
      (c2wBoard.make_move c2Move).1.unmake_move c2Move
        (c2wBoard.make_move c2Move).2 = c2wBoard := by
  have hcons : Consistent c2wBoard := by
    constructor <;> decide
  exact ⟨hcons, by decide, by decide,
    make_unmake_roundtrip c2wBoard c2Move hcons (by decide) (by decide)⟩

/-- C2 counterexample to the unconditional claim: when the 1024-entry history
is full, `make_move` skips the push but `unmake_move` still pops, so the
roundtrip loses one history entry. -/
theorem make_unmake_full_history_cex :
    c2Move ∈ gen_legal_moves c2Board ∧ c2Board.pos_history_count = MAX_HISTORY ∧
      (c2Board.make_move c2Move).1.unmake_move c2Move
        (c2Board.make_move c2Move).2 ≠ c2Board :=
  ⟨by decide, by decide, fun h =>
    absurd (congrArg (fun bb => bb.pos_history.length) h) (by decide)⟩

/-! ## Zobrist hash invariant (C3 infrastructure) -/

theorem xor_left_comm_nat (a b c : Nat) : a ^^^ (b ^^^ c) = b ^^^ (a ^^^ c) := by
  rw [← Nat.xor_assoc, Nat.xor_comm a b, Nat.xor_assoc]

theorem xor_cancel_left_nat (a b : Nat) : a ^^^ (a ^^^ b) = b := by
  rw [← Nat.xor_assoc, Nat.xor_self, Nat.zero_xor]

theorem foldl_xor_init (g : Int → Nat) (l : List Int) (i : Nat) :
    l.foldl (fun h sq => h ^^^ g sq) i = i ^^^ xfold g l := by
  induction l generalizing i with
  | nil => rw [xfold]; simp
  | cons a t ih =>
    rw [List.foldl_cons, ih]
    have h1 : xfold g (a :: t) = List.foldl (fun h sq => h ^^^ g sq) (0 ^^^ g a) t :=
      rfl
    rw [h1, ih, Nat.zero_xor, Nat.xor_assoc]

theorem xfold_cons (g : Int → Nat) (a : Int) (t : List Int) :
    xfold g (a :: t) = g a ^^^ xfold g t := by
  have h1 : xfold g (a :: t) = List.foldl (fun h sq => h ^^^ g sq) (0 ^^^ g a) t :=
    rfl
  rw [h1, foldl_xor_init, Nat.zero_xor]

theorem xfold_congr_mem (g1 g2 : Int → Nat) (l : List Int)
    (h : ∀ x ∈ l, g1 x = g2 x) : xfold g1 l = xfold g2 l := by
  induction l with
  | nil => rfl
  | cons a t ih =>
    rw [xfold_cons, xfold_cons, h a (List.mem_cons_self a t),
      ih (fun x hx => h x (List.mem_cons_of_mem a hx))]

theorem xfold_update (g : Int → Nat) (l : List Int) (sq : Int) (v : Nat)
    (hnd : l.Nodup) (hmem : sq ∈ l) :
    xfold (Function.update g sq v) l = xfold g l ^^^ g sq ^^^ v := by
  induction l with
  | nil => cases hmem
  | cons a t ih =>
    rw [xfold_cons, xfold_cons]
    rcases List.mem_cons.mp hmem with heq | hmem2
    · subst heq
      rw [Function.update_same]
      have hnotin : sq ∉ t := (List.nodup_cons.mp hnd).1
      have hsame : xfold (Function.update g sq v) t = xfold g t :=
        xfold_congr_mem _ _ t
          (fun x hx => Function.update_noteq (fun hh => hnotin (by rw [← hh]; exact hx)) _ _)
      rw [hsame]
      simp [Nat.xor_assoc, Nat.xor_comm, xor_left_comm_nat, Nat.xor_self,
        Nat.zero_xor, Nat.xor_zero, xor_cancel_left_nat]
    · have hne : a ≠ sq := fun hh => (List.nodup_cons.mp hnd).1 (hh ▸ hmem2)
      rw [Function.update_noteq hne, ih (List.nodup_cons.mp hnd).2 hmem2]
      simp [Nat.xor_assoc]

theorem range64_nodup : range64.Nodup := by
  rw [range64]
  exact (List.nodup_range 64).map (fun a b h => Int.ofNat.inj h)

theorem ite_xor_right (c : Prop) [Decidable c] (h k : Nat) :
    (if c then h ^^^ k else h) = h ^^^ (if c then k else 0) := by
  by_cases hc : c
  · rw [if_pos hc, if_pos hc]
  · rw [if_neg hc, if_neg hc, Nat.xor_zero]

theorem compute_hash_value_eq (b : Board) : b.compute_hash_value =
    xfold (pcontrib b.board) range64 ^^^ (if b.side = 1 then Z_SIDE else 0) ^^^
      Z_CASTLE b.castling ^^^
      (if b.ep_square ≥ 0 then Z_EP (sq_file b.ep_square) else 0) := by
  simp only [Board.compute_hash_value, zobristOf]
  have hfold : ∀ (l : List Int) (i : Nat),
      l.foldl (fun h sq => if b.board sq ≠ 0 then
        h ^^^ Z_PIECE (piece_index (b.board sq)) sq else h) i =
      l.foldl (fun h sq => h ^^^ pcontrib b.board sq) i := by
    intro l
    induction l with
    | nil => intro i; rfl
    | cons a t ih =>
      intro i
      rw [List.foldl_cons, List.foldl_cons, ih]
      congr 1
      rw [pcontrib]
      by_cases hc : b.board a ≠ 0
      · rw [if_pos hc, if_pos hc]
      · rw [if_neg hc, if_neg hc, Nat.xor_zero]
  rw [hfold, ite_xor_right, ite_xor_right]
  rfl

theorem pcontrib_update_noteq (bd : Int → Int) (sq : Int) (v : Int) (x : Int)
    (h : x ≠ sq) :
    pcontrib (Function.update bd sq v) x = pcontrib bd x := by
  rw [pcontrib, pcontrib, Function.update_noteq h]

theorem xfold_update_one (bd : Int → Int) (sq : Int) (v : Int)
    (hsq : 0 ≤ sq ∧ sq < 64) :
    xfold (pcontrib (Function.update bd sq v)) range64 =
      xfold (pcontrib bd) range64 ^^^ pcontrib bd sq ^^^
        (if v ≠ 0 then Z_PIECE (piece_index v) sq else 0) := by
  have hupd : pcontrib (Function.update bd sq v) =
      Function.update (pcontrib bd) sq
        (if v ≠ 0 then Z_PIECE (piece_index v) sq else 0) := by
    funext x
    by_cases hx : x = sq
    · subst hx
      rw [pcontrib, Function.update_same, Function.update_same]
    · rw [pcontrib_update_noteq bd sq v x hx, Function.update_noteq hx]
  rw [hupd, xfold_update _ _ _ _ range64_nodup (mem_range64.mpr hsq)]

theorem make_hash_std (b : Board) (m : Move)
    (hca0 : m.flags &&& FL_CASTLE = 0) (hep0 : m.flags &&& FL_EP = 0)
    (hne : m.fromSq ≠ m.toSq) (hcap : m.captured = b.board m.toSq)
    (hpne : b.board m.fromSq ≠ 0)
    (hplaced : (if m.promotion ≠ 0 then m.promotion else b.board m.fromSq) ≠ 0)
    (hfr : 0 ≤ m.fromSq ∧ m.fromSq < 64) (htr : 0 ≤ m.toSq ∧ m.toSq < 64)
    (hside01 : b.side = 0 ∨ b.side = 1)
    (hh : b.hash = b.compute_hash_value) :
    make_hash b m = xfold (pcontrib (make_board_fn b m)) range64 ^^^
      (if b.side ^^^ 1 = 1 then Z_SIDE else 0) ^^^
      Z_CASTLE (make_castling b m) ^^^
      (if make_ep b m ≥ 0 then Z_EP (sq_file (make_ep b m)) else 0) := by
  have hepf : ¬ (m.flags &&& FL_EP ≠ 0) := fun h => h hep0
  have hcaf : ¬ (m.flags &&& FL_CASTLE ≠ 0) := fun h => h hca0
  have hepc : ¬ (m.captured ≠ 0 ∧ m.flags &&& FL_EP ≠ 0) := fun h => hepf h.2
  have hmb : make_board_fn b m = Function.update
      (Function.update b.board m.fromSq 0) m.toSq
      (if m.promotion ≠ 0 then m.promotion else b.board m.fromSq) := by
    simp only [make_board_fn]
    rw [if_neg hepc, if_neg hcaf]
  have hF : xfold (pcontrib (make_board_fn b m)) range64 =
      xfold (pcontrib b.board) range64 ^^^ pcontrib b.board m.fromSq ^^^
        pcontrib b.board m.toSq ^^^
        Z_PIECE (piece_index (if m.promotion ≠ 0 then m.promotion
          else b.board m.fromSq)) m.toSq := by
    rw [hmb, xfold_update_one _ _ _ htr,
      pcontrib_update_noteq _ _ _ _ (Ne.symm hne),
      xfold_update_one _ _ _ hfr, if_pos hplaced,
      if_neg (show ¬ ((0 : Int) ≠ 0) from fun h => h rfl), Nat.xor_zero]
  have hKcap : (if m.captured ≠ 0 then Z_PIECE (piece_index m.captured) m.toSq
      else 0) = pcontrib b.board m.toSq := by
    rw [hcap, pcontrib]
  have hKfrom : Z_PIECE (piece_index (b.board m.fromSq)) m.fromSq =
      pcontrib b.board m.fromSq := by
    rw [pcontrib, if_pos hpne]
  have hepnew : (if make_ep b m ≥ 0 then Z_EP (sq_file (make_ep b m)) else 0) =
      (if m.flags &&& FL_DOUBLE ≠ 0 ∧ piece_type (b.board m.fromSq) = 1 then
        Z_EP (sq_file ((m.fromSq + m.toSq) / 2)) else 0) := by
    simp only [make_ep]
    by_cases hcond : m.flags &&& FL_DOUBLE ≠ 0 ∧ piece_type (b.board m.fromSq) = 1
    · rw [if_pos hcond, if_pos hcond,
        if_pos (show ((m.fromSq + m.toSq) / 2 : Int) ≥ 0 by omega)]
    · rw [if_neg hcond, if_neg hcond,
        if_neg (show ¬ ((-1 : Int) ≥ 0) by norm_num)]
  simp only [make_hash]
  rw [if_neg hepf, ite_xor_right, if_neg hcaf, ite_xor_right, ite_xor_right,
    hh, compute_hash_value_eq, hKcap, hKfrom, hF, hepnew]
  rcases hside01 with hs | hs <;> rw [hs] <;>
    simp [Nat.xor_assoc, Nat.xor_comm, xor_left_comm_nat, xor_cancel_left_nat,
      Nat.xor_self, Nat.xor_zero, Nat.zero_xor]

theorem make_hash_ep (b : Board) (m : Move) (hcons : Consistent b)
    (hsh : epShape b m) (hfr : 0 ≤ m.fromSq ∧ m.fromSq < 64)
    (htr : 0 ≤ m.toSq ∧ m.toSq < 64) (hne : m.fromSq ≠ m.toSq)
    (hh : b.hash = b.compute_hash_value) :
    make_hash b m = xfold (pcontrib (make_board_fn b m)) range64 ^^^
      (if b.side ^^^ 1 = 1 then Z_SIDE else 0) ^^^
      Z_CASTLE (make_castling b m) ^^^
      (if make_ep b m ≥ 0 then Z_EP (sq_file (make_ep b m)) else 0) := by
  obtain ⟨hfl, hto, hcap, hfrom_pc, hpr0, hcs, hfile, hrank⟩ := hsh
  have hside01 : b.side = 0 ∨ b.side = 1 :=
    Nat.le_one_iff_eq_zero_or_eq_one.mp hcons.side_le
  have hcaf : ¬ (m.flags &&& FL_CASTLE ≠ 0) := by rw [hfl]; decide
  have hepf : m.flags &&& FL_EP ≠ 0 := by rw [hfl]; decide
  have hpneg : ¬ (m.promotion ≠ 0) := fun h => h hpr0
  have hsign : piece_sign b.side = 1 ∨ piece_sign b.side = -1 := by
    unfold piece_sign
    split
    · exact Or.inl rfl
    · exact Or.inr rfl
  have hcne : m.captured ≠ 0 := by
    rw [hcap]
    rcases hsign with h | h <;> rw [h] <;> norm_num
  have hcsq : ep_capture_sq m = m.toSq - piece_sign b.side * 8 := hcs
  have hct : ep_capture_sq m ≠ m.toSq := by
    rw [hcsq]
    rcases hsign with h | h <;> rw [h] <;> intro hh2 <;> omega
  have hcf : ep_capture_sq m ≠ m.fromSq := by
    intro hh2
    simp only [ep_capture_sq, make_sq, sq_file, sq_rank] at hh2 hfile
    omega
  have hepsq : 0 ≤ b.ep_square := hto ▸ htr.1
  have hb_to : b.board m.toSq = 0 := by
    rcases hside01 with h | h
    · rw [hto]; exact (hcons.ep_w h hepsq).1
    · rw [hto]; exact (hcons.ep_b h hepsq).1
  have hb_cap : b.board (ep_capture_sq m) = m.captured := by
    rcases hside01 with h | h
    · have h8 : ep_capture_sq m = b.ep_square - 8 := by
        rw [hcsq, hto, h]; norm_num [piece_sign]
      rw [h8, hcap, h]
      norm_num [piece_sign]
      exact (hcons.ep_w h hepsq).2
    · have h8 : ep_capture_sq m = b.ep_square + 8 := by
        rw [hcsq, hto, h]; norm_num [piece_sign]
      rw [h8, hcap, h]
      norm_num [piece_sign]
      exact (hcons.ep_b h hepsq).2
  have hcapr : 0 ≤ ep_capture_sq m ∧ ep_capture_sq m < 64 := by
    simp only [ep_capture_sq, make_sq, sq_file, sq_rank]
    omega
  have hpne : b.board m.fromSq ≠ 0 := by
    rw [hfrom_pc]
    rcases hsign with h | h <;> rw [h] <;> norm_num
  have hmb : make_board_fn b m = Function.update (Function.update
      (Function.update b.board m.fromSq 0) (ep_capture_sq m) 0) m.toSq
      (b.board m.fromSq) := by
    have hepcpos : m.captured ≠ 0 ∧ m.flags &&& FL_EP ≠ 0 := ⟨hcne, hepf⟩
    simp only [make_board_fn]
    rw [if_neg hcaf, if_pos hepcpos, if_neg hpneg]
  have hF : xfold (pcontrib (make_board_fn b m)) range64 =
      xfold (pcontrib b.board) range64 ^^^ pcontrib b.board m.fromSq ^^^
        pcontrib b.board (ep_capture_sq m) ^^^ pcontrib b.board m.toSq ^^^
        Z_PIECE (piece_index (b.board m.fromSq)) m.toSq := by
    rw [hmb, xfold_update_one _ _ _ htr,
      pcontrib_update_noteq _ _ _ _ (Ne.symm hct),
      pcontrib_update_noteq _ _ _ _ (Ne.symm hne),
      xfold_update_one _ _ _ hcapr,
      pcontrib_update_noteq _ _ _ _ hcf,
      xfold_update_one _ _ _ hfr, if_pos hpne,
      if_neg (show ¬ ((0 : Int) ≠ 0) from fun h => h rfl),
      if_neg (show ¬ ((0 : Int) ≠ 0) from fun h => h rfl), Nat.xor_zero,
      Nat.xor_zero]
  have hKcap : Z_PIECE (piece_index m.captured) (ep_capture_sq m) =
      pcontrib b.board (ep_capture_sq m) := by
    rw [pcontrib, hb_cap, if_pos hcne]
  have hKfrom : Z_PIECE (piece_index (b.board m.fromSq)) m.fromSq =
      pcontrib b.board m.fromSq := by
    rw [pcontrib, if_pos hpne]
  have hPto : pcontrib b.board m.toSq = 0 := by
    rw [pcontrib, hb_to]
    norm_num
  have hdf : ¬ (m.flags &&& FL_DOUBLE ≠ 0 ∧ piece_type (b.board m.fromSq) = 1) :=
    fun h => absurd h.1 (by rw [hfl]; decide)
  have hepnew : (if make_ep b m ≥ 0 then Z_EP (sq_file (make_ep b m)) else 0) =
      0 := by
    simp only [make_ep]
    rw [if_neg hdf, if_neg (show ¬ ((-1 : Int) ≥ 0) by norm_num)]
  simp only [make_hash]
  rw [if_pos hcne, if_pos hepf, if_neg hcaf, if_neg hpneg, if_neg hdf,
    ite_xor_right, hh, compute_hash_value_eq, hKcap, hKfrom, hF, hepnew, hPto]
  rcases hside01 with hs | hs <;> rw [hs] <;>
    simp [Nat.xor_assoc, Nat.xor_comm, xor_left_comm_nat, xor_cancel_left_nat,
      Nat.xor_self, Nat.xor_zero, Nat.zero_xor]

theorem make_hash_castle (b : Board) (m : Move) (hcons : Consistent b)
    (hsh : castleShape b m) (hh : b.hash = b.compute_hash_value) :
    make_hash b m = xfold (pcontrib (make_board_fn b m)) range64 ^^^
      (if b.side ^^^ 1 = 1 then Z_SIDE else 0) ^^^
      Z_CASTLE (make_castling b m) ^^^
      (if make_ep b m ≥ 0 then Z_EP (sq_file (make_ep b m)) else 0) := by
  obtain ⟨hfl, hc0, hp0, _hatk, hcases⟩ := hsh
  have hcastle : m.flags &&& FL_CASTLE ≠ 0 := by rw [hfl]; decide
  have hepf2 : ¬ (m.flags &&& FL_EP ≠ 0) := by rw [hfl]; decide
  have hepc : ¬ (m.captured ≠ 0 ∧ m.flags &&& FL_EP ≠ 0) := fun h => hepf2 h.2
  have hpneg : ¬ (m.promotion ≠ 0) := fun h => h hp0
  have hdf : ¬ (m.flags &&& FL_DOUBLE ≠ 0 ∧ piece_type (b.board m.fromSq) = 1) :=
    fun h => absurd h.1 (by rw [hfl]; decide)
  have hepnew : (if make_ep b m ≥ 0 then Z_EP (sq_file (make_ep b m)) else 0) =
      0 := by
    simp only [make_ep]
    rw [if_neg hdf, if_neg (show ¬ ((-1 : Int) ≥ 0) by norm_num)]
  rcases hcases with ⟨hside, hfrom, hkq⟩ | ⟨hsidene, hfrom, hkq⟩
  · rcases hkq with ⟨hto, hbit, hsA, hsB, _ha1, _ha2⟩ |
      ⟨hto, hbit, hsA, hsB, _hsC, _ha1, _ha2⟩
    · -- white king-side
      have hcorner := hcons.castle_wk hside hbit
      have hbRF : b.board 7 = 4 := hcorner.1
      have hkh : b.king_sq 0 = 4 := hcorner.2
      have hbF : b.board 4 = 6 := by
        have hh2 := hcons.king_pc
        rw [hside, hkh] at hh2
        norm_num [piece_sign] at hh2
        exact hh2
      have hmb : make_board_fn b m = Function.update (Function.update
          (Function.update (Function.update b.board 4 0) 6 6) 7 0)
          5 4 := by
        simp only [make_board_fn]
        rw [if_neg hepc, if_neg hpneg, if_pos hcastle, hfrom, hto, hbF]
        norm_num [piece_side, piece_sign, sq_file, sq_rank, make_sq]
      have hF : xfold (pcontrib (make_board_fn b m)) range64 =
          xfold (pcontrib b.board) range64 ^^^ pcontrib b.board 4 ^^^
            pcontrib b.board 6 ^^^
            Z_PIECE (piece_index ((6 : Int))) 6 ^^^
            pcontrib b.board 7 ^^^ pcontrib b.board 5 ^^^
            Z_PIECE (piece_index ((4 : Int))) 5 := by
        rw [hmb, xfold_update_one _ _ _ (by norm_num),
          pcontrib_update_noteq _ _ _ _ (show ((5 : Int)) ≠ 7 by norm_num),
          pcontrib_update_noteq _ _ _ _ (show ((5 : Int)) ≠ 6 by norm_num),
          pcontrib_update_noteq _ _ _ _ (show ((5 : Int)) ≠ 4 by norm_num),
          xfold_update_one _ _ _ (by norm_num),
          pcontrib_update_noteq _ _ _ _ (show ((7 : Int)) ≠ 6 by norm_num),
          pcontrib_update_noteq _ _ _ _ (show ((7 : Int)) ≠ 4 by norm_num),
          xfold_update_one _ _ _ (by norm_num),
          pcontrib_update_noteq _ _ _ _ (show ((6 : Int)) ≠ 4 by norm_num),
          xfold_update_one _ _ _ (by norm_num),
          if_pos (show ((6 : Int)) ≠ 0 by norm_num),
          if_pos (show ((4 : Int)) ≠ 0 by norm_num),
          if_neg (show ¬ ((0 : Int) ≠ 0) from fun h => h rfl),
          if_neg (show ¬ ((0 : Int) ≠ 0) from fun h => h rfl), Nat.xor_zero,
          Nat.xor_zero]
      have hcapeq : m.captured = b.board ((6 : Int)) := by rw [hc0, hsB]
      have hKcap : (if m.captured ≠ 0 then
          Z_PIECE (piece_index m.captured) ((6 : Int)) else 0) =
          pcontrib b.board 6 := by
        rw [hcapeq, pcontrib]
      have hKF : pcontrib b.board ((4 : Int)) =
          Z_PIECE (piece_index ((6 : Int))) 4 := by
        rw [pcontrib, hbF]
        norm_num
      have hKrf : pcontrib b.board ((7 : Int)) =
          Z_PIECE (piece_index ((4 : Int))) 7 := by
        rw [pcontrib, hbRF]
        norm_num
      have hPRT : pcontrib b.board ((5 : Int)) = 0 := by
        rw [pcontrib, hsA]
        norm_num
      simp only [make_hash]
      rw [if_neg hepf2, if_pos hcastle, if_neg hpneg, if_neg hdf, ite_xor_right,
        ite_xor_right, hh, compute_hash_value_eq, hF, hepnew, hfrom, hto, hKcap,
        hside]
      simp [Nat.xor_assoc, Nat.xor_comm, xor_left_comm_nat, xor_cancel_left_nat,
        Nat.xor_self, Nat.xor_zero, Nat.zero_xor, piece_side, piece_sign,
        sq_file, sq_rank, make_sq, hbF, hKF, hKrf, hPRT]
    · -- white queen-side
      have hcorner := hcons.castle_wq hside hbit
      have hbRF : b.board 0 = 4 := hcorner.1
      have hkh : b.king_sq 0 = 4 := hcorner.2
      have hbF : b.board 4 = 6 := by
        have hh2 := hcons.king_pc
        rw [hside, hkh] at hh2
        norm_num [piece_sign] at hh2
        exact hh2
      have hmb : make_board_fn b m = Function.update (Function.update
          (Function.update (Function.update b.board 4 0) 2 6) 0 0)
          3 4 := by
        simp only [make_board_fn]
        rw [if_neg hepc, if_neg hpneg, if_pos hcastle, hfrom, hto, hbF]
        norm_num [piece_side, piece_sign, sq_file, sq_rank, make_sq]
      have hF : xfold (pcontrib (make_board_fn b m)) range64 =
          xfold (pcontrib b.board) range64 ^^^ pcontrib b.board 4 ^^^
            pcontrib b.board 2 ^^^
            Z_PIECE (piece_index ((6 : Int))) 2 ^^^
            pcontrib b.board 0 ^^^ pcontrib b.board 3 ^^^
            Z_PIECE (piece_index ((4 : Int))) 3 := by
        rw [hmb, xfold_update_one _ _ _ (by norm_num),
          pcontrib_update_noteq _ _ _ _ (show ((3 : Int)) ≠ 0 by norm_num),
          pcontrib_update_noteq _ _ _ _ (show ((3 : Int)) ≠ 2 by norm_num),
          pcontrib_update_noteq _ _ _ _ (show ((3 : Int)) ≠ 4 by norm_num),
          xfold_update_one _ _ _ (by norm_num),
          pcontrib_update_noteq _ _ _ _ (show ((0 : Int)) ≠ 2 by norm_num),
          pcontrib_update_noteq _ _ _ _ (show ((0 : Int)) ≠ 4 by norm_num),
          xfold_update_one _ _ _ (by norm_num),
          pcontrib_update_noteq _ _ _ _ (show ((2 : Int)) ≠ 4 by norm_num),
          xfold_update_one _ _ _ (by norm_num),
          if_pos (show ((6 : Int)) ≠ 0 by norm_num),
          if_pos (show ((4 : Int)) ≠ 0 by norm_num),
          if_neg (show ¬ ((0 : Int) ≠ 0) from fun h => h rfl),
          if_neg (show ¬ ((0 : Int) ≠ 0) from fun h => h rfl), Nat.xor_zero,
          Nat.xor_zero]
      have hcapeq : m.captured = b.board ((2 : Int)) := by rw [hc0, hsB]
      have hKcap : (if m.captured ≠ 0 then
          Z_PIECE (piece_index m.captured) ((2 : Int)) else 0) =
          pcontrib b.board 2 := by
        rw [hcapeq, pcontrib]
      have hKF : pcontrib b.board ((4 : Int)) =
          Z_PIECE (piece_index ((6 : Int))) 4 := by
        rw [pcontrib, hbF]
        norm_num
      have hKrf : pcontrib b.board ((0 : Int)) =
          Z_PIECE (piece_index ((4 : Int))) 0 := by
        rw [pcontrib, hbRF]
        norm_num
      have hPRT : pcontrib b.board ((3 : Int)) = 0 := by
        rw [pcontrib, hsA]
        norm_num
      simp only [make_hash]
      rw [if_neg hepf2, if_pos hcastle, if_neg hpneg, if_neg hdf, ite_xor_right,
        ite_xor_right, hh, compute_hash_value_eq, hF, hepnew, hfrom, hto, hKcap,
        hside]
      simp [Nat.xor_assoc, Nat.xor_comm, xor_left_comm_nat, xor_cancel_left_nat,
        Nat.xor_self, Nat.xor_zero, Nat.zero_xor, piece_side, piece_sign,
        sq_file, sq_rank, make_sq, hbF, hKF, hKrf, hPRT]
  · have hside : b.side = 1 :=
      Nat.le_antisymm hcons.side_le (Nat.one_le_iff_ne_zero.mpr hsidene)
    rcases hkq with ⟨hto, hbit, hsA, hsB, _ha1, _ha2⟩ |
      ⟨hto, hbit, hsA, hsB, _hsC, _ha1, _ha2⟩
    · -- black king-side
      have hcorner := hcons.castle_bk hside hbit
      have hbRF : b.board 63 = (-4) := hcorner.1
      have hkh : b.king_sq 1 = 60 := hcorner.2
      have hbF : b.board 60 = (-6) := by
        have hh2 := hcons.king_pc
        rw [hside, hkh] at hh2
        norm_num [piece_sign] at hh2
        exact hh2
      have hmb : make_board_fn b m = Function.update (Function.update
          (Function.update (Function.update b.board 60 0) 62 (-6)) 63 0)
          61 (-4) := by
        simp only [make_board_fn]
        rw [if_neg hepc, if_neg hpneg, if_pos hcastle, hfrom, hto, hbF]
        norm_num [piece_side, piece_sign, sq_file, sq_rank, make_sq]
      have hF : xfold (pcontrib (make_board_fn b m)) range64 =
          xfold (pcontrib b.board) range64 ^^^ pcontrib b.board 60 ^^^
            pcontrib b.board 62 ^^^
            Z_PIECE (piece_index (((-6) : Int))) 62 ^^^
            pcontrib b.board 63 ^^^ pcontrib b.board 61 ^^^
            Z_PIECE (piece_index (((-4) : Int))) 61 := by
        rw [hmb, xfold_update_one _ _ _ (by norm_num),
          pcontrib_update_noteq _ _ _ _ (show ((61 : Int)) ≠ 63 by norm_num),
          pcontrib_update_noteq _ _ _ _ (show ((61 : Int)) ≠ 62 by norm_num),
          pcontrib_update_noteq _ _ _ _ (show ((61 : Int)) ≠ 60 by norm_num),
          xfold_update_one _ _ _ (by norm_num),
          pcontrib_update_noteq _ _ _ _ (show ((63 : Int)) ≠ 62 by norm_num),
          pcontrib_update_noteq _ _ _ _ (show ((63 : Int)) ≠ 60 by norm_num),
          xfold_update_one _ _ _ (by norm_num),
          pcontrib_update_noteq _ _ _ _ (show ((62 : Int)) ≠ 60 by norm_num),
          xfold_update_one _ _ _ (by norm_num),
          if_pos (show (((-6) : Int)) ≠ 0 by norm_num),
          if_pos (show (((-4) : Int)) ≠ 0 by norm_num),
          if_neg (show ¬ ((0 : Int) ≠ 0) from fun h => h rfl),
          if_neg (show ¬ ((0 : Int) ≠ 0) from fun h => h rfl), Nat.xor_zero,
          Nat.xor_zero]
      have hcapeq : m.captured = b.board ((62 : Int)) := by rw [hc0, hsB]
      have hKcap : (if m.captured ≠ 0 then
          Z_PIECE (piece_index m.captured) ((62 : Int)) else 0) =
          pcontrib b.board 62 := by
        rw [hcapeq, pcontrib]
      have hKF : pcontrib b.board ((60 : Int)) =
          Z_PIECE (piece_index (((-6) : Int))) 60 := by
        rw [pcontrib, hbF]
        norm_num
      have hKrf : pcontrib b.board ((63 : Int)) =
          Z_PIECE (piece_index (((-4) : Int))) 63 := by
        rw [pcontrib, hbRF]
        norm_num
      have hPRT : pcontrib b.board ((61 : Int)) = 0 := by
        rw [pcontrib, hsA]
        norm_num
      simp only [make_hash]
      rw [if_neg hepf2, if_pos hcastle, if_neg hpneg, if_neg hdf, ite_xor_right,
        ite_xor_right, hh, compute_hash_value_eq, hF, hepnew, hfrom, hto, hKcap,
        hside]
      simp [Nat.xor_assoc, Nat.xor_comm, xor_left_comm_nat, xor_cancel_left_nat,
        Nat.xor_self, Nat.xor_zero, Nat.zero_xor, piece_side, piece_sign,
        sq_file, sq_rank, make_sq, hbF, hKF, hKrf, hPRT]
    · -- black queen-side
      have hcorner := hcons.castle_bq hside hbit
      have hbRF : b.board 56 = (-4) := hcorner.1
      have hkh : b.king_sq 1 = 60 := hcorner.2
      have hbF : b.board 60 = (-6) := by
        have hh2 := hcons.king_pc
        rw [hside, hkh] at hh2
        norm_num [piece_sign] at hh2
        exact hh2
      have hmb : make_board_fn b m = Function.update (Function.update
          (Function.update (Function.update b.board 60 0) 58 (-6)) 56 0)
          59 (-4) := by
        simp only [make_board_fn]
        rw [if_neg hepc, if_neg hpneg, if_pos hcastle, hfrom, hto, hbF]
        norm_num [piece_side, piece_sign, sq_file, sq_rank, make_sq]
      have hF : xfold (pcontrib (make_board_fn b m)) range64 =
          xfold (pcontrib b.board) range64 ^^^ pcontrib b.board 60 ^^^
            pcontrib b.board 58 ^^^
            Z_PIECE (piece_index (((-6) : Int))) 58 ^^^
            pcontrib b.board 56 ^^^ pcontrib b.board 59 ^^^
            Z_PIECE (piece_index (((-4) : Int))) 59 := by
        rw [hmb, xfold_update_one _ _ _ (by norm_num),
          pcontrib_update_noteq _ _ _ _ (show ((59 : Int)) ≠ 56 by norm_num),
          pcontrib_update_noteq _ _ _ _ (show ((59 : Int)) ≠ 58 by norm_num),
          pcontrib_update_noteq _ _ _ _ (show ((59 : Int)) ≠ 60 by norm_num),
          xfold_update_one _ _ _ (by norm_num),
          pcontrib_update_noteq _ _ _ _ (show ((56 : Int)) ≠ 58 by norm_num),
          pcontrib_update_noteq _ _ _ _ (show ((56 : Int)) ≠ 60 by norm_num),
          xfold_update_one _ _ _ (by norm_num),
          pcontrib_update_noteq _ _ _ _ (show ((58 : Int)) ≠ 60 by norm_num),
          xfold_update_one _ _ _ (by norm_num),
          if_pos (show (((-6) : Int)) ≠ 0 by norm_num),
          if_pos (show (((-4) : Int)) ≠ 0 by norm_num),
          if_neg (show ¬ ((0 : Int) ≠ 0) from fun h => h rfl),
          if_neg (show ¬ ((0 : Int) ≠ 0) from fun h => h rfl), Nat.xor_zero,
          Nat.xor_zero]
      have hcapeq : m.captured = b.board ((58 : Int)) := by rw [hc0, hsB]
      have hKcap : (if m.captured ≠ 0 then
          Z_PIECE (piece_index m.captured) ((58 : Int)) else 0) =
          pcontrib b.board 58 := by
        rw [hcapeq, pcontrib]
      have hKF : pcontrib b.board ((60 : Int)) =
          Z_PIECE (piece_index (((-6) : Int))) 60 := by
        rw [pcontrib, hbF]
        norm_num
      have hKrf : pcontrib b.board ((56 : Int)) =
          Z_PIECE (piece_index (((-4) : Int))) 56 := by
        rw [pcontrib, hbRF]
        norm_num
      have hPRT : pcontrib b.board ((59 : Int)) = 0 := by
        rw [pcontrib, hsA]
        norm_num
      simp only [make_hash]
      rw [if_neg hepf2, if_pos hcastle, if_neg hpneg, if_neg hdf, ite_xor_right,
        ite_xor_right, hh, compute_hash_value_eq, hF, hepnew, hfrom, hto, hKcap,
        hside]
      simp [Nat.xor_assoc, Nat.xor_comm, xor_left_comm_nat, xor_cancel_left_nat,
        Nat.xor_self, Nat.xor_zero, Nat.zero_xor, piece_side, piece_sign,
        sq_file, sq_rank, make_sq, hbF, hKF, hKrf, hPRT]

/-- C3: for a consistent position whose `hash` field equals the from-scratch
Zobrist value, the incrementally updated hash after a legal `make_move`
equals the Zobrist hash recomputed from the resulting state. -/
theorem make_move_hash_invariant (b : Board) (m : Move) (hcons : Consistent b)
    (hm : m ∈ gen_legal_moves b) (hh : b.hash = b.compute_hash_value) :
    (b.make_move m).1.hash = (b.make_move m).1.compute_hash_value := by
  have gf := genFacts_of_mem_legal b m hm
  have hfr : 0 ≤ m.fromSq ∧ m.fromSq < 64 := by
    rcases gf.from_range with h | h
    · exact h
    · rw [h]; exact ⟨hcons.king_lb, hcons.king_ub⟩
  have htr : 0 ≤ m.toSq ∧ m.toSq < 64 := gf.to_range
  have hside01 : b.side = 0 ∨ b.side = 1 :=
    Nat.le_one_iff_eq_zero_or_eq_one.mp hcons.side_le
  have hhash1 : (b.make_move m).1.hash = make_hash b m := rfl
  have hch : (b.make_move m).1.compute_hash_value =
      xfold (pcontrib (make_board_fn b m)) range64 ^^^
        (if b.side ^^^ 1 = 1 then Z_SIDE else 0) ^^^
        Z_CASTLE (make_castling b m) ^^^
        (if make_ep b m ≥ 0 then Z_EP (sq_file (make_ep b m)) else 0) := by
    rw [compute_hash_value_eq]
    rfl
  rw [hhash1, hch]
  rcases gf.shape with hq | hd | he | hc
  · obtain ⟨hfl, hcap, halts⟩ := hq
    have hpne : b.board m.fromSq ≠ 0 := by
      have hsgn : piece_sign b.side = 1 ∨ piece_sign b.side = -1 := by
        unfold piece_sign
        split
        · exact Or.inl rfl
        · exact Or.inr rfl
      have hval : b.board m.fromSq = piece_sign b.side * 1 ∨
          b.board m.fromSq = piece_sign b.side * 2 ∨
          b.board m.fromSq = piece_sign b.side * 3 ∨
          b.board m.fromSq = piece_sign b.side * 4 ∨
          b.board m.fromSq = piece_sign b.side * 5 ∨
          b.board m.fromSq = piece_sign b.side * 6 := by
        rcases halts with ⟨hpc, _⟩ | ⟨hpc, _⟩ | ⟨hpc, _⟩ | ⟨hfromk, _⟩
        · exact Or.inl hpc
        · exact Or.inr (Or.inl hpc)
        · rcases hpc with h | h | h
          · exact Or.inr (Or.inr (Or.inl h))
          · exact Or.inr (Or.inr (Or.inr (Or.inl h)))
          · exact Or.inr (Or.inr (Or.inr (Or.inr (Or.inl h))))
        · refine Or.inr (Or.inr (Or.inr (Or.inr (Or.inr ?_))))
          rw [hfromk]
          exact hcons.king_pc
      rcases hsgn with hs | hs <;> rcases hval with h | h | h | h | h | h <;>
        rw [h, hs] <;> norm_num
    have hca0 : m.flags &&& FL_CASTLE = 0 := by rw [hfl]; decide
    have hep0 : m.flags &&& FL_EP = 0 := by rw [hfl]; decide
    have hplaced : (if m.promotion ≠ 0 then m.promotion
        else b.board m.fromSq) ≠ 0 := by
      by_cases hp : m.promotion ≠ 0
      · rw [if_pos hp]; exact hp
      · rw [if_neg hp]; exact hpne
    exact make_hash_std b m hca0 hep0 gf.ne hcap hpne hplaced hfr htr hside01 hh
  · obtain ⟨hfl, hpc, hc0, ht0, hp0⟩ := hd
    have hca0 : m.flags &&& FL_CASTLE = 0 := by rw [hfl]; decide
    have hep0 : m.flags &&& FL_EP = 0 := by rw [hfl]; decide
    have hcap : m.captured = b.board m.toSq := by rw [hc0, ht0]
    have hpne : b.board m.fromSq ≠ 0 := by
      have hsgn : piece_sign b.side = 1 ∨ piece_sign b.side = -1 := by
        unfold piece_sign
        split
        · exact Or.inl rfl
        · exact Or.inr rfl
      rcases hsgn with hs | hs <;> rw [hpc, hs] <;> norm_num
    have hplaced : (if m.promotion ≠ 0 then m.promotion
        else b.board m.fromSq) ≠ 0 := by
      rw [if_neg (fun h => h hp0)]
      exact hpne
    exact make_hash_std b m hca0 hep0 gf.ne hcap hpne hplaced hfr htr hside01 hh
  · exact make_hash_ep b m hcons he hfr htr gf.ne hh
  · exact make_hash_castle b m hcons hc hh

/-- C3 witness: the bare-kings position with a correct stored hash and the
legal king move a1-b1. -/
theorem make_move_hash_invariant_witness :
    Consistent c2wBoard ∧ c2Move ∈ gen_legal_moves c2wBoard ∧
      c2wBoard.hash = c2wBoard.compute_hash_value ∧
      (c2wBoard.make_move c2Move).1.hash =
        (c2wBoard.make_move c2Move).1.compute_hash_value := by
  have hcons : Consistent c2wBoard := by constructor <;> decide
  have hh : c2wBoard.hash = c2wBoard.compute_hash_value := by
    rw [Board.compute_hash_value,
      show c2wBoard.board = bareKingsFn from rfl,
      show c2wBoard.side = 0 from rfl,
      show c2wBoard.castling = 0 from rfl,
      show c2wBoard.ep_square = -1 from rfl]
    rfl
  exact ⟨hcons, by decide, hh,
    make_move_hash_invariant c2wBoard c2Move hcons (by decide) hh⟩

/-! ## C6: castling generation -/

/-- C6: the generator emits a castling move exactly when the corresponding
rights bit is set, the squares between king and rook are empty, and the
king's square, transit and destination squares are unattacked; queenside
additionally requires the b-file square empty but not unattacked. -/
theorem castle_generation (b : Board) :
    (b.side = 0 →
      ((⟨4, 6, 0, 0, FL_CASTLE⟩ : Move) ∈ gen_pseudo_moves b ↔
        b.castling &&& 1 ≠ 0 ∧ b.board 5 = 0 ∧ b.board 6 = 0 ∧
          b.is_attacked (b.king_sq 0) 1 = false ∧
          b.is_attacked 5 1 = false ∧ b.is_attacked 6 1 = false) ∧
      ((⟨4, 2, 0, 0, FL_CASTLE⟩ : Move) ∈ gen_pseudo_moves b ↔
        b.castling &&& 2 ≠ 0 ∧ b.board 3 = 0 ∧ b.board 2 = 0 ∧ b.board 1 = 0 ∧
          b.is_attacked (b.king_sq 0) 1 = false ∧
          b.is_attacked 3 1 = false ∧ b.is_attacked 2 1 = false)) ∧
    (b.side = 1 →
      ((⟨60, 62, 0, 0, FL_CASTLE⟩ : Move) ∈ gen_pseudo_moves b ↔
        b.castling &&& 4 ≠ 0 ∧ b.board 61 = 0 ∧ b.board 62 = 0 ∧
          b.is_attacked (b.king_sq 1) 0 = false ∧
          b.is_attacked 61 0 = false ∧ b.is_attacked 62 0 = false) ∧
      ((⟨60, 58, 0, 0, FL_CASTLE⟩ : Move) ∈ gen_pseudo_moves b ↔
        b.castling &&& 8 ≠ 0 ∧ b.board 59 = 0 ∧ b.board 58 = 0 ∧ b.board 57 = 0 ∧
          b.is_attacked (b.king_sq 1) 0 = false ∧
          b.is_attacked 59 0 = false ∧ b.is_attacked 58 0 = false)) := by
  constructor
  · intro hside
    constructor
    · constructor
      · intro hm
        have gf := genFacts_of_mem_pseudo b _ hm
        rcases gf.shape with hq | hd | he | hc
        · exact absurd hq.1 (by decide)
        · exact absurd hd.1 (by decide)
        · exact absurd he.1 (by decide)
        obtain ⟨_, _, _, hatk, hcases⟩ := hc
        rcases hcases with ⟨hs0, _, hkq⟩ | ⟨hsne, _, _⟩
        · rcases hkq with ⟨_hto, hbit, h5, h6, ha5, ha6⟩ | ⟨hto2, _⟩
          · refine ⟨hbit, h5, h6, ?_, ha5, ha6⟩
            rw [hside, Nat.zero_xor] at hatk
            exact hatk
          · exact absurd hto2 (by decide)
        · exact absurd hside hsne
      · rintro ⟨hbit, h5, h6, hax, ha5, ha6⟩
        have hguard : ¬ (b.is_attacked (b.king_sq b.side) (b.side ^^^ 1) = true) := by
          rw [hside, Nat.zero_xor, hax]
          simp
        have hcond : b.castling &&& 1 ≠ 0 ∧ b.board 5 = 0 ∧ b.board 6 = 0 ∧ b.is_attacked 5 1 = false ∧ b.is_attacked 6 1 = false :=
          ⟨hbit, h5, h6, ha5, ha6⟩
        simp only [gen_pseudo_moves]
        refine List.mem_append_right _ ?_
        simp only [gen_king_moves]
        refine List.mem_append_right _ ?_
        rw [if_neg hguard, if_pos hside, if_pos hcond]
        exact List.mem_append_left _ (List.mem_singleton.mpr rfl)
    · constructor
      · intro hm
        have gf := genFacts_of_mem_pseudo b _ hm
        rcases gf.shape with hq | hd | he | hc
        · exact absurd hq.1 (by decide)
        · exact absurd hd.1 (by decide)
        · exact absurd he.1 (by decide)
        obtain ⟨_, _, _, hatk, hcases⟩ := hc
        rcases hcases with ⟨hs0, _, hkq⟩ | ⟨hsne, _, _⟩
        · rcases hkq with ⟨hto2, _⟩ | ⟨_hto, hbit, h3, h2, h1, ha3, ha2⟩
          · exact absurd hto2 (by decide)
          · refine ⟨hbit, h3, h2, h1, ?_, ha3, ha2⟩
            rw [hside, Nat.zero_xor] at hatk
            exact hatk
        · exact absurd hside hsne
      · rintro ⟨hbit, h3, h2, h1, hax, ha3, ha2⟩
        have hguard : ¬ (b.is_attacked (b.king_sq b.side) (b.side ^^^ 1) = true) := by
          rw [hside, Nat.zero_xor, hax]
          simp
        have hcond : b.castling &&& 2 ≠ 0 ∧ b.board 3 = 0 ∧ b.board 2 = 0 ∧ b.board 1 = 0 ∧ b.is_attacked 3 1 = false ∧ b.is_attacked 2 1 = false :=
          ⟨hbit, h3, h2, h1, ha3, ha2⟩
        simp only [gen_pseudo_moves]
        refine List.mem_append_right _ ?_
        simp only [gen_king_moves]
        refine List.mem_append_right _ ?_
        rw [if_neg hguard, if_pos hside, if_pos hcond]
        exact List.mem_append_right _ (List.mem_singleton.mpr rfl)
  · intro hside
    constructor
    · constructor
      · intro hm
        have gf := genFacts_of_mem_pseudo b _ hm
        rcases gf.shape with hq | hd | he | hc
        · exact absurd hq.1 (by decide)
        · exact absurd hd.1 (by decide)
        · exact absurd he.1 (by decide)
        obtain ⟨_, _, _, hatk, hcases⟩ := hc
        rcases hcases with ⟨hs0, _, _⟩ | ⟨_, _, hkq⟩
        · exact absurd (hside ▸ hs0) (by decide)
        · rcases hkq with ⟨_hto, hbit, h61, h62, ha61, ha62⟩ | ⟨hto2, _⟩
          · refine ⟨hbit, h61, h62, ?_, ha61, ha62⟩
            rw [hside, show ((1 : Nat) ^^^ 1) = 0 from rfl] at hatk
            exact hatk
          · exact absurd hto2 (by decide)
      · rintro ⟨hbit, h61, h62, hax, ha61, ha62⟩
        have hguard : ¬ (b.is_attacked (b.king_sq b.side) (b.side ^^^ 1) = true) := by
          rw [hside, show ((1 : Nat) ^^^ 1) = 0 from rfl, hax]
          simp
        have hcond : b.castling &&& 4 ≠ 0 ∧ b.board 61 = 0 ∧ b.board 62 = 0 ∧ b.is_attacked 61 0 = false ∧ b.is_attacked 62 0 = false :=
          ⟨hbit, h61, h62, ha61, ha62⟩
        simp only [gen_pseudo_moves]
        refine List.mem_append_right _ ?_
        simp only [gen_king_moves]
        refine List.mem_append_right _ ?_
        rw [if_neg hguard, if_neg (show ¬ (b.side = 0) by rw [hside]; decide), if_pos hcond]
        exact List.mem_append_left _ (List.mem_singleton.mpr rfl)
    · constructor
      · intro hm
        have gf := genFacts_of_mem_pseudo b _ hm
        rcases gf.shape with hq | hd | he | hc
        · exact absurd hq.1 (by decide)
        · exact absurd hd.1 (by decide)
        · exact absurd he.1 (by decide)
        obtain ⟨_, _, _, hatk, hcases⟩ := hc
        rcases hcases with ⟨hs0, _, _⟩ | ⟨_, _, hkq⟩
        · exact absurd (hside ▸ hs0) (by decide)
        · rcases hkq with ⟨hto2, _⟩ | ⟨_hto, hbit, h59, h58, h57, ha59, ha58⟩
          · exact absurd hto2 (by decide)
          · refine ⟨hbit, h59, h58, h57, ?_, ha59, ha58⟩
            rw [hside, show ((1 : Nat) ^^^ 1) = 0 from rfl] at hatk
            exact hatk
      · rintro ⟨hbit, h59, h58, h57, hax, ha59, ha58⟩
        have hguard : ¬ (b.is_attacked (b.king_sq b.side) (b.side ^^^ 1) = true) := by
          rw [hside, show ((1 : Nat) ^^^ 1) = 0 from rfl, hax]
          simp
        have hcond : b.castling &&& 8 ≠ 0 ∧ b.board 59 = 0 ∧ b.board 58 = 0 ∧ b.board 57 = 0 ∧ b.is_attacked 59 0 = false ∧ b.is_attacked 58 0 = false :=
          ⟨hbit, h59, h58, h57, ha59, ha58⟩
        simp only [gen_pseudo_moves]
        refine List.mem_append_right _ ?_
        simp only [gen_king_moves]
        refine List.mem_append_right _ ?_
        rw [if_neg hguard, if_neg (show ¬ (b.side = 0) by rw [hside]; decide), if_pos hcond]
        exact List.mem_append_right _ (List.mem_singleton.mpr rfl)

/-- C6 witness: both white castling moves are generated in the two-rook
position `c6Board`. -/
theorem castle_generation_witness :
    (⟨4, 6, 0, 0, FL_CASTLE⟩ : Move) ∈ gen_pseudo_moves c6Board ∧
      (⟨4, 2, 0, 0, FL_CASTLE⟩ : Move) ∈ gen_pseudo_moves c6Board :=
  ⟨((castle_generation c6Board).1 rfl).1.mpr (by decide),
   ((castle_generation c6Board).1 rfl).2.mpr (by decide)⟩

end ChessEngine
